import Mathlib

/-!
Verification development for the Resume-Dashboard candidate scoring and
skill-normalization engine.

The TypeScript sources are shallowly embedded as Lean definitions:

  - JavaScript strings are Lean strings; all string operations (toLowerCase,
    split, trim, includes, regex replaces) are modelled by explicit functions
    over the character list of the string, in an ASCII model (the data the
    engine processes is ASCII skill/jobs text; Unicode case-mapping and the
    full Unicode whitespace class are not modelled).
  - JavaScript numbers are modelled by JSNum: either NaN or an ideal real
    number (rounding of IEEE doubles is not modelled; every claim proved or
    refuted here depends only on exact arithmetic identities and on NaN
    propagation, which IEEE doubles share with this model).  Where a code
    path can never produce NaN, plain reals are used directly.
  - JavaScript Map (insertion-ordered, set-overwrites) is modelled as an
    association list with in-place overwrite; JavaScript Set is modelled by
    a first-occurrence deduplicated list.
  - Array.prototype.sort (stable since ES2019) is modelled by a stable
    insertion sort on the same comparator.  All comparators appearing in the
    code are consistent (induced by a total preorder), so the stable sorted
    result is unique and the model is exact.
-/

/-! ## JavaScript string primitives (ASCII model) -/

/-- ASCII model of the JavaScript regex class \w : letters, digits, underscore. -/
def isWordChar (c : Char) : Bool := c.isAlphanum || c = '_'

/-- ASCII model of the JavaScript regex class \s (space, tab, CR, LF). -/
def isSpaceChar (c : Char) : Bool := c.isWhitespace

/-- Model of s.toLowerCase(). -/
def jsToLower (s : String) : String := String.mk (s.data.map Char.toLower)

/-- Model of s.toUpperCase(). -/
def jsToUpper (s : String) : String := String.mk (s.data.map Char.toUpper)

/-- Split a character list at every character satisfying p (JavaScript
s.split(c) semantics: n separators produce n+1 pieces, empties kept). -/
def splitOnPred (p : Char → Bool) : List Char → List (List Char)
  | [] => [[]]
  | c :: rest =>
    if p c then [] :: splitOnPred p rest
    else
      match splitOnPred p rest with
      | t :: ts => (c :: t) :: ts
      | [] => [[c]]

/-- Model of s.split(' '). -/
def jsSplitSpace (s : String) : List String :=
  (splitOnPred (· = ' ') s.data).map String.mk

def startsWithWs : List Char → Bool
  | [] => false
  | c :: _ => isSpaceChar c

/-- Model of s.split(/\s+/): each maximal whitespace run is one separator; a
leading (resp. trailing) run contributes a leading (resp. trailing) empty
piece, and the empty string splits to [""]. -/
def jsSplitWs (s : String) : List String :=
  if s.data = [] then [""]
  else
    let tokens := (splitOnPred isSpaceChar s.data).filter (fun t => t ≠ [])
    let lead : List (List Char) := if startsWithWs s.data then [[]] else []
    let trail : List (List Char) := if startsWithWs s.data.reverse then [[]] else []
    (lead ++ tokens ++ trail).map String.mk

/-- One step of building a JavaScript Set: keep first occurrences, in order. -/
def insertUnique (acc : List String) (x : String) : List String :=
  if x ∈ acc then acc else acc ++ [x]

/-- Model of [...new Set(l)] : first occurrences of l, in insertion order. -/
def jsSetToList (l : List String) : List String := l.foldl insertUnique []

def isPrefixOfChars : List Char → List Char → Bool
  | [], _ => true
  | _ :: _, [] => false
  | c :: cs, d :: ds => c = d && isPrefixOfChars cs ds

def containsChars (needle : List Char) : List Char → Bool
  | [] => isPrefixOfChars needle []
  | c :: rest => isPrefixOfChars needle (c :: rest) || containsChars needle rest

/-- Model of s.includes(sub). -/
def jsIncludes (s sub : String) : Bool := containsChars sub.data s.data

def trimChars (l : List Char) : List Char :=
  ((l.dropWhile isSpaceChar).reverse.dropWhile isSpaceChar).reverse

/-- Model of s.trim(). -/
def jsTrim (s : String) : String := String.mk (trimChars s.data)

/-- Model of .replace(/\s+/g, ' '): each whitespace run becomes one space.
The flag records whether the previous character was whitespace. -/
def collapseWsAux : Bool → List Char → List Char
  | _, [] => []
  | prevWs, c :: rest =>
    if isSpaceChar c then
      if prevWs then collapseWsAux true rest
      else ' ' :: collapseWsAux true rest
    else c :: collapseWsAux false rest

/-! ## JavaScript numbers -/

/-- A JavaScript number: NaN or an ideal real.  (Infinities do not occur on
any code path modelled here: the only zero divisors arise with zero
numerators, where JavaScript also yields NaN.) -/
inductive JSNum where
  | nan : JSNum
  | num : ℝ → JSNum

def JSNum.add : JSNum → JSNum → JSNum
  | num a, num b => num (a + b)
  | _, _ => nan

def JSNum.mul : JSNum → JSNum → JSNum
  | num a, num b => num (a * b)
  | _, _ => nan

/-- JavaScript division.  0/0 is NaN.  A nonzero numerator over zero would be
an infinity in JavaScript; that combination is unreachable in the embedded
code (every division site has numerator 0 whenever its denominator is 0), so
it is mapped to NaN as well. -/
noncomputable def JSNum.div : JSNum → JSNum → JSNum
  | num a, num b => if b = 0 then nan else num (a / b)
  | _, _ => nan

/-- Math.min: NaN if either argument is NaN. -/
def JSNum.min : JSNum → JSNum → JSNum
  | num a, num b => num (Min.min a b)
  | _, _ => nan

/-- Math.round: half-up rounding; NaN propagates. -/
noncomputable def JSNum.round : JSNum → JSNum
  | num a => num ((⌊a + 1/2⌋ : ℤ) : ℝ)
  | nan => nan

/-- Math.log: natural logarithm.  Every call site in the embedded code passes
a positive finite argument; 0 (which gives -Infinity in JavaScript) and
negatives (NaN) are mapped to NaN. -/
noncomputable def JSNum.log : JSNum → JSNum
  | num a => if 0 < a then num (Real.log a) else nan
  | nan => nan

/-! ## Data model (src/types): optional fields of the raw JSON records are
modelled with Option; a missing field is none. -/

structure WorkExperience where
  company : Option String
  title : Option String
  start_date : Option String
  end_date : Option String
  is_current : Option Bool
  location : Option String
  responsibilities : Option (List String)
  skills : Option (List String)

structure Project where
  name : Option String
  description : Option String
  skills : Option (List String)
  url : Option String

structure ComputedBlock where
  score : Option ℝ
  experience_level : Option String
  employment_status : Option String

/-- A coordinate field holds a JavaScript number (possibly NaN) or is absent
(undefined / non-numeric JSON value, which fails the typeof check). -/
structure LocationCoordinates where
  lat : Option JSNum
  lng : Option JSNum

structure Candidate where
  id : String
  name : String
  email : Option String
  phone : Option String
  location : String
  location_coordinates : Option LocationCoordinates
  work_experience : Option (List WorkExperience)
  projects : Option (List Project)
  total_we_months : Option ℕ
  error : Option String
  computed : Option ComputedBlock

/-- Truthiness of an optional JavaScript string: present and nonempty. -/
def jsTruthy : Option String → Bool
  | some s => s ≠ ""
  | none => false

/-! ## String Similarity Estimator (skillsUtils: preprocessText,
levenshteinDistance, jaccardSimilarity, cosineSimilarity,
getSkillSimilarityScore) -/

/-- text.toLowerCase().replace(/[^\w\s]/g, ' ').replace(/\s+/g, ' ').trim() -/
def preprocessText (s : String) : String :=
  let lowered := jsToLower s
  let replaced := lowered.data.map (fun c => if isWordChar c || isSpaceChar c then c else ' ')
  jsTrim (String.mk (collapseWsAux false replaced))

/-- Substitution cost of the DP: compares a[i] and b[j]; out-of-range reads
are undefined in JavaScript and undefined === undefined holds, matching the
equality of the two none values here (such reads never occur in range). -/
def substCost (a b : List Char) (i j : ℕ) : ℕ :=
  if a[i]? = b[j]? then 0 else 1

/-- The Levenshtein DP table: levMatrix a b j i is matrix[j][i] of the
source, the edit distance between the first i characters of a and the first
j characters of b.  The source fills the table by two nested loops; the
entries satisfy exactly this recurrence. -/
def levMatrix (a b : List Char) : ℕ → ℕ → ℕ
  | 0, i => i
  | j + 1, 0 => j + 1
  | j + 1, i + 1 =>
    Min.min (levMatrix a b (j + 1) i + 1)
      (Min.min (levMatrix a b j (i + 1) + 1)
        (levMatrix a b j i + substCost a b i j))
termination_by j i => (j, i)

/-- levenshteinDistance(a, b) = matrix[b.length][a.length]. -/
def levenshteinDistance (a b : String) : ℕ :=
  levMatrix a.data b.data b.data.length a.data.length

/-- Jaccard similarity of the two whitespace-token sets. -/
noncomputable def jaccardSimilarity (a b : String) : ℝ :=
  let setA := jsSetToList (jsSplitSpace a)
  let setB := jsSetToList (jsSplitSpace b)
  if setA.length = 0 ∧ setB.length = 0 then 1.0
  else
    let intersection := jsSetToList (setA.filter (fun x => setB.contains x))
    let union := jsSetToList (setA ++ setB)
    (intersection.length : ℝ) / (union.length : ℝ)

/-- Number of occurrences of word in words (the term-frequency vector entry). -/
def termFrequency (words : List String) (word : String) : ℕ :=
  (words.filter (fun w => w = word)).length

/-- Cosine similarity of the two term-frequency vectors over the union
vocabulary of both strings. -/
noncomputable def cosineSimilarity (a b : String) : ℝ :=
  let wordsA := jsSplitSpace a
  let wordsB := jsSplitSpace b
  let uniqueWords := jsSetToList (wordsA ++ wordsB)
  let dotProduct := (uniqueWords.map (fun w => (termFrequency wordsA w : ℝ) * (termFrequency wordsB w : ℝ))).sum
  let magnitudeA := Real.sqrt ((uniqueWords.map (fun w => (termFrequency wordsA w : ℝ) * (termFrequency wordsA w : ℝ))).sum)
  let magnitudeB := Real.sqrt ((uniqueWords.map (fun w => (termFrequency wordsB w : ℝ) * (termFrequency wordsB w : ℝ))).sum)
  if magnitudeA = 0 ∨ magnitudeB = 0 then 0
  else dotProduct / (magnitudeA * magnitudeB)

/-- getSkillSimilarityScore: 1.0 on identical normalized strings, 0.9 when
one contains the other, otherwise 0.4 edit + 0.3 jaccard + 0.3 cosine. -/
noncomputable def getSkillSimilarityScore (skill1 skill2 : String) : ℝ :=
  let processed1 := preprocessText skill1
  let processed2 := preprocessText skill2
  if processed1 = processed2 then 1.0
  else if jsIncludes processed1 processed2 || jsIncludes processed2 processed1 then 0.9
  else
    let levenshtein := 1 - (levenshteinDistance processed1 processed2 : ℝ) / ((Max.max processed1.length processed2.length : ℕ) : ℝ)
    0.4 * levenshtein + 0.3 * jaccardSimilarity processed1 processed2 + 0.3 * cosineSimilarity processed1 processed2

/-! ## Skill Clustering Engine (skillsUtils: groupSimilarSkills,
getRepresentativeSkills, extractAllSkills, normalizeSkill,
createSkillNormalizationMapping) -/

/-- Walk the insertion-ordered group list and append the skill to the first
group whose key (its first-seen member) is similar enough to the
preprocessed skill; none if no group matches. -/
noncomputable def addToFirstMatchingGroup (threshold : ℝ) (pskill skill : String) :
    List (String × List String) → Option (List (String × List String))
  | [] => none
  | (rep, members) :: rest =>
    if threshold ≤ getSkillSimilarityScore pskill (preprocessText rep) then
      some ((rep, members ++ [skill]) :: rest)
    else
      match addToFirstMatchingGroup threshold pskill skill rest with
      | some updated => some ((rep, members) :: updated)
      | none => none

/-- Map.set on the insertion-ordered group map: overwrite the value of an
existing key in place, else append a new entry. -/
def mapSetGroups (groups : List (String × List String)) (k : String) (v : List String) :
    List (String × List String) :=
  if groups.any (fun g => g.1 = k) then
    groups.map (fun g => if g.1 = k then (k, v) else g)
  else groups ++ [(k, v)]

/-- One iteration of the grouping loop: join the first matching group, or
groups.set(skills[i], [skills[i]]) — which overwrites an existing group
keyed by this exact skill string (reachable only for thresholds above 1),
else starts a new singleton group. -/
noncomputable def addSkillToGroups (threshold : ℝ) (groups : List (String × List String))
    (skill : String) : List (String × List String) :=
  match addToFirstMatchingGroup threshold (preprocessText skill) skill groups with
  | some updated => updated
  | none => mapSetGroups groups skill [skill]

/-- groupSimilarSkills: greedy first-match clustering over the input order.
The insertion-ordered JavaScript Map of groups is an association list.  The
source's similarityThreshold parameter defaults to 0.8. -/
noncomputable def groupSimilarSkills (skills : List String) (similarityThreshold : ℝ) :
    List (String × List String) :=
  skills.foldl (addSkillToGroups similarityThreshold) []

/-- a.length < 4 && a === a.toUpperCase() -/
def isAbbrevLike (s : String) : Bool := s.length < 4 && s = jsToUpper s

/-- The representative-selection comparator: abbreviation-like strings sort
last, then shorter strings first. -/
def repCompare (a b : String) : ℤ :=
  if isAbbrevLike a && !isAbbrevLike b then 1
  else if !isAbbrevLike a && isAbbrevLike b then -1
  else (a.length : ℤ) - (b.length : ℤ)

/-- Stable insertion of x into a list sorted by a JavaScript comparator:
x goes in front of the first element y with cmp x y <= 0. -/
noncomputable def jsSortInsert {α : Type} (cmp : α → α → ℝ) (x : α) : List α → List α
  | [] => [x]
  | y :: ys => if cmp x y ≤ 0 then x :: y :: ys else y :: jsSortInsert cmp x ys

/-- Model of Array.prototype.sort(cmp) (stable, ES2019): stable insertion
sort.  Every comparator in the embedded code is induced by a total preorder,
for which the stable sorted permutation is unique, so this model is exact. -/
noncomputable def jsSort {α : Type} (cmp : α → α → ℝ) (l : List α) : List α :=
  l.foldr (jsSortInsert cmp) []

/-- sorted[0] of the comparator-sorted group members (groups are never
empty, so the default is never used). -/
noncomputable def bestRepresentative (groupMembers : List String) : String :=
  (jsSort (fun a b => ((repCompare a b : ℤ) : ℝ)) groupMembers).headD ""

/-- JavaScript Map.set: overwrite in place if the key exists, else append. -/
def mapSet (m : List (String × String)) (k v : String) : List (String × String) :=
  if m.any (fun p => p.1 = k) then m.map (fun p => if p.1 = k then (k, v) else p)
  else m ++ [(k, v)]

/-- JavaScript Map.get as an Option. -/
def mapGet (m : List (String × String)) (k : String) : Option String :=
  (m.find? (fun p => p.1 = k)).map (fun p => p.2)

/-- getRepresentativeSkills: map every member of every group to the group's
best representative. -/
noncomputable def getRepresentativeSkills (skillGroups : List (String × List String)) :
    List (String × String) :=
  skillGroups.foldl
    (fun mapping g =>
      let best := bestRepresentative g.2
      g.2.foldl (fun m skill => mapSet m skill best) mapping)
    []

/-- extractAllSkills: all truthy skill strings of all candidates (work
experience first, then projects), first occurrences in insertion order. -/
def extractAllSkills (candidates : List Candidate) : List String :=
  jsSetToList (candidates.flatMap (fun candidate =>
    (match candidate.work_experience with
     | some exps => exps.flatMap (fun exp =>
         match exp.skills with
         | some sk => sk.filter (fun s => s ≠ "")
         | none => [])
     | none => []) ++
    (match candidate.projects with
     | some projs => projs.flatMap (fun proj =>
         match proj.skills with
         | some sk => sk.filter (fun s => s ≠ "")
         | none => [])
     | none => [])))

/-- normalizeSkill: skillMapping.get(skill) || skill (an empty mapped value
is falsy and falls back to the raw skill). -/
def normalizeSkill (skill : String) (skillMapping : List (String × String)) : String :=
  match mapGet skillMapping skill with
  | some v => if v = "" then skill else v
  | none => skill

/-- createSkillNormalizationMapping, with the source's default clustering
threshold 0.8. -/
noncomputable def createSkillNormalizationMapping (candidates : List Candidate) :
    List (String × String) :=
  getRepresentativeSkills (groupSimilarSkills (extractAllSkills candidates) 0.8)

/-! ## TF-IDF Scorer (tfidfUtils: calculateTF, calculateIDF, calculateTFIDF,
createCandidateDocuments, processText, processJobRequirement) -/

/-- calculateTF: case-insensitive occurrence count over the document length.
An empty document gives 0/0. -/
noncomputable def calculateTF (term : String) (document : List String) : JSNum :=
  let count := (document.filter (fun word => jsToLower word = jsToLower term)).length
  JSNum.div (JSNum.num count) (JSNum.num document.length)

/-- calculateIDF with add-one smoothing. -/
noncomputable def calculateIDF (term : String) (documents : List (List String)) : JSNum :=
  let numDocumentsWithTerm :=
    (documents.filter (fun doc => doc.any (fun word => jsToLower word = jsToLower term))).length
  JSNum.add
    (JSNum.log (JSNum.div (JSNum.num (documents.length + 1)) (JSNum.num (numDocumentsWithTerm + 1))))
    (JSNum.num 1)

noncomputable def calculateTFIDF (term : String) (document : List String)
    (documents : List (List String)) : JSNum :=
  JSNum.mul (calculateTF term document) (calculateIDF term documents)

/-- The per-candidate document of createCandidateDocuments: work-experience
skills, title words, company words, responsibility words longer than 3; then
project skills, name words, description words longer than 3. -/
def createCandidateDocument (candidate : Candidate) : List String :=
  (match candidate.work_experience with
   | some exps => exps.flatMap (fun exp =>
       (match exp.skills with
        | some sk => sk.map jsToLower
        | none => []) ++
       (match exp.title with
        | some t => if t ≠ "" then jsSplitWs (jsToLower t) else []
        | none => []) ++
       (match exp.company with
        | some c => if c ≠ "" then jsSplitWs (jsToLower c) else []
        | none => []) ++
       (match exp.responsibilities with
        | some resps => resps.flatMap (fun resp =>
            if resp ≠ "" then (jsSplitWs (jsToLower resp)).filter (fun word => word.length > 3)
            else [])
        | none => []))
   | none => []) ++
  (match candidate.projects with
   | some projs => projs.flatMap (fun proj =>
       (match proj.skills with
        | some sk => sk.map jsToLower
        | none => []) ++
       (match proj.name with
        | some n => if n ≠ "" then jsSplitWs (jsToLower n) else []
        | none => []) ++
       (match proj.description with
        | some d =>
          if d ≠ "" then (jsSplitWs (jsToLower d)).filter (fun word => word.length > 3) else []
        | none => []))
   | none => [])

def createCandidateDocuments (candidates : List Candidate) : List (List String) :=
  candidates.map createCandidateDocument

def stopWords : List String :=
  ["the", "and", "for", "with", "was", "that", "this", "are", "have", "from",
   "not", "has", "were", "they", "their", "been", "who", "what", "when", "where",
   "why", "how", "all", "any", "both", "each", "more", "most", "some", "such"]

/-- processText: lowercase, delete non-word non-space characters, split on
whitespace, keep words longer than 2, drop stop words. -/
def processText (text : String) : List String :=
  let cleanedText := String.mk ((jsToLower text).data.filter (fun c => isWordChar c || isSpaceChar c))
  let words := (jsSplitWs cleanedText).filter (fun word => word.length > 2)
  words.filter (fun word => !stopWords.contains word)

/-- processJobRequirement: processText then keep only words longer than 3. -/
def processJobRequirement (jobRequirement : String) : List String :=
  if jobRequirement = "" then []
  else (processText jobRequirement).filter (fun word => word.length > 3)

/-! ## Job-Match Scorer and Candidate Ranking Engine (tfidfUtils:
calculateJobRequirementMatchScore, calculateTotalCandidateScore) -/

/-- The candidate document built inside calculateJobRequirementMatchScore
(unlike createCandidateDocuments it has no responsibility words). -/
def jobMatchCandidateDocument (candidate : Candidate) : List String :=
  (match candidate.work_experience with
   | some exps => exps.flatMap (fun exp =>
       (match exp.skills with
        | some sk => sk.map jsToLower
        | none => []) ++
       (match exp.title with
        | some t => if t ≠ "" then jsSplitWs (jsToLower t) else []
        | none => []) ++
       (match exp.company with
        | some c => if c ≠ "" then jsSplitWs (jsToLower c) else []
        | none => []))
   | none => []) ++
  (match candidate.projects with
   | some projs => projs.flatMap (fun proj =>
       (match proj.skills with
        | some sk => sk.map jsToLower
        | none => []) ++
       (match proj.name with
        | some n => if n ≠ "" then jsSplitWs (jsToLower n) else []
        | none => []) ++
       (match proj.description with
        | some d =>
          if d ≠ "" then (jsSplitWs (jsToLower d)).filter (fun word => word.length > 3) else []
        | none => []))
   | none => [])

/-- [...(candidate.work_experience || []).flatMap(exp => exp.skills || []),
    ...(candidate.projects || []).flatMap(proj => proj.skills || [])] -/
def candidateRawSkills (candidate : Candidate) : List String :=
  (match candidate.work_experience with
   | some exps => exps.flatMap (fun exp => exp.skills.getD [])
   | none => []) ++
  (match candidate.projects with
   | some projs => projs.flatMap (fun proj => proj.skills.getD [])
   | none => [])

/-- calculateJobRequirementMatchScore: 1.5 per requirement term that is a
case-insensitive substring of a raw candidate skill, else 0.5 x TF-IDF of
the term over the one-candidate corpus; normalized by 1.5 x the number of
terms and clipped at 1. -/
noncomputable def calculateJobRequirementMatchScore (candidate : Candidate)
    (jobRequirement : String) : JSNum :=
  if jobRequirement = "" then JSNum.num 0
  else
    let jobRequirementTerms := processJobRequirement jobRequirement
    let candidateDocument := jobMatchCandidateDocument candidate
    let allDocuments := createCandidateDocuments [candidate]
    let matchScore := jobRequirementTerms.foldl
      (fun acc term =>
        let exactSkillMatch := (candidateRawSkills candidate).any
          (fun skill => skill ≠ "" && jsIncludes (jsToLower skill) term)
        if exactSkillMatch then JSNum.add acc (JSNum.num 1.5)
        else JSNum.add acc (JSNum.mul (calculateTFIDF term candidateDocument allDocuments) (JSNum.num 0.5)))
      (JSNum.num 0)
    JSNum.min (JSNum.div matchScore (JSNum.num ((jobRequirementTerms.length : ℝ) * 1.5))) (JSNum.num 1)

/-- calculateTotalCandidateScore: round(40 x match + min(months x 0.5, 30) +
min(projects x 7.5, 30)). -/
noncomputable def calculateTotalCandidateScore (candidate : Candidate)
    (jobRequirement : String) : JSNum :=
  let skillMatchScore := JSNum.mul (calculateJobRequirementMatchScore candidate jobRequirement) (JSNum.num 40)
  let expScore := JSNum.num (Min.min ((candidate.total_we_months.getD 0 : ℝ) * 0.5) 30)
  let projectsCount := match candidate.projects with
    | some projs => projs.length
    | none => 0
  let projectScore := JSNum.num (Min.min ((projectsCount : ℝ) * 7.5) 30)
  JSNum.round (JSNum.add (JSNum.add skillMatchScore expScore) projectScore)

/-! ## Filter Evaluator (filterUtils: filterCandidates and helpers) -/

structure FilterType where
  search : String
  experience : List String
  skills : List String
  location : List String
  employmentStatus : List String

/-- matchesSearch: case-insensitive substring search over name, skills,
location, job titles, companies, project names and descriptions. -/
def matchesSearch (candidate : Candidate) (searchTerm : String) : Bool :=
  if searchTerm = "" then true
  else
    let search := jsToLower searchTerm
    let weSkills := match candidate.work_experience with
      | some exps => exps.flatMap (fun exp =>
          match exp.skills with
          | some sk => sk.filter (fun s => s ≠ "")
          | none => [])
      | none => []
    let projSkills := match candidate.projects with
      | some projs => projs.flatMap (fun proj =>
          match proj.skills with
          | some sk => sk.filter (fun s => s ≠ "")
          | none => [])
      | none => []
    let allSkills := jsSetToList (weSkills ++ projSkills)
    (jsIncludes (jsToLower candidate.name) search) ||
    (allSkills.any (fun skill => jsIncludes (jsToLower skill) search)) ||
    (candidate.location ≠ "" && jsIncludes (jsToLower candidate.location) search) ||
    (match candidate.work_experience with
     | some exps => exps.any (fun exp =>
         match exp.title with
         | some t => t ≠ "" && jsIncludes (jsToLower t) search
         | none => false)
     | none => false) ||
    (match candidate.work_experience with
     | some exps => exps.any (fun exp =>
         match exp.company with
         | some c => c ≠ "" && jsIncludes (jsToLower c) search
         | none => false)
     | none => false) ||
    (match candidate.projects with
     | some projs => projs.any (fun proj =>
         match proj.name with
         | some n => n ≠ "" && jsIncludes (jsToLower n) search
         | none => false)
     | none => false) ||
    (match candidate.projects with
     | some projs => projs.any (fun proj =>
         match proj.description with
         | some d => d ≠ "" && jsIncludes (jsToLower d) search
         | none => false)
     | none => false)

/-- matchesSkills: the candidate owns at least one of the filter skills. -/
def matchesSkills (candidate : Candidate) (skills : List String) : Bool :=
  let weSkills := match candidate.work_experience with
    | some exps => exps.flatMap (fun exp => exp.skills.getD [])
    | none => []
  let projSkills := match candidate.projects with
    | some projs => projs.flatMap (fun proj => proj.skills.getD [])
    | none => []
  let candidateSkills := jsSetToList (weSkills ++ projSkills)
  skills.any (fun skill => candidateSkills.contains skill)

/-- filterCandidates: drop error records, then apply the conjunctive search /
experience / skills / location / employment-status filters. -/
def filterCandidates (candidates : List Candidate) (filters : FilterType) : List Candidate :=
  candidates.filter (fun candidate =>
    if jsTruthy candidate.error then false
    else if filters.search ≠ "" && !matchesSearch candidate filters.search then false
    else if filters.experience.length > 0 &&
        !filters.experience.contains ((candidate.computed.bind (fun c => c.experience_level)).getD "") then false
    else if filters.skills.length > 0 && !matchesSkills candidate filters.skills then false
    else if filters.location.length > 0 &&
        !filters.location.contains (if candidate.location = "" then "Unknown" else candidate.location) then false
    else if filters.employmentStatus.length > 0 &&
        !filters.employmentStatus.contains ((candidate.computed.bind (fun c => c.employment_status)).getD "") then false
    else true)

/-! ## Distance ranking (filterUtils: calculateDistance, sortCandidates) -/

inductive SortField where
  | name : SortField
  | score : SortField
  | experience : SortField
  | distance : SortField
deriving DecidableEq

inductive SortDirection where
  | asc : SortDirection
  | desc : SortDirection
deriving DecidableEq

structure SortOption where
  field : SortField
  direction : SortDirection

/-- Math.atan2. -/
noncomputable def jsAtan2 (y x : ℝ) : ℝ :=
  if 0 < x then Real.arctan (y / x)
  else if x < 0 then
    (if 0 ≤ y then Real.arctan (y / x) + Real.pi else Real.arctan (y / x) - Real.pi)
  else
    (if 0 < y then Real.pi / 2 else if y < 0 then -(Real.pi / 2) else 0)

/-- calculateDistance: Haversine distance in km; NaN when any coordinate is
missing (Number(undefined) is NaN) or NaN. -/
noncomputable def calculateDistance (coordsA coordsB : LocationCoordinates) : JSNum :=
  match coordsA.lat, coordsA.lng, coordsB.lat, coordsB.lng with
  | some (JSNum.num latA), some (JSNum.num lngA), some (JSNum.num latB), some (JSNum.num lngB) =>
    let dLat := (latB - latA) * Real.pi / 180
    let dLng := (lngB - lngA) * Real.pi / 180
    let a := Real.sin (dLat / 2) * Real.sin (dLat / 2) +
      Real.cos (latA * Real.pi / 180) * Real.cos (latB * Real.pi / 180) *
      Real.sin (dLng / 2) * Real.sin (dLng / 2)
    let c := 2 * jsAtan2 (Real.sqrt a) (Real.sqrt (1 - a))
    JSNum.num (6371 * c)
  | _, _, _, _ => JSNum.nan

/-- coords && typeof coords.lat === 'number' && typeof coords.lng === 'number'
(NaN has typeof 'number' and passes this check). -/
def isValidCoords (candidate : Candidate) : Bool :=
  match candidate.location_coordinates with
  | some coords => coords.lat.isSome && coords.lng.isSome
  | none => false

/-- The comparator of the distance branch of sortCandidates. -/
noncomputable def distanceComparator (direction : SortDirection) (referenceLocation : LocationCoordinates)
    (a b : Candidate) : ℝ :=
  if !isValidCoords a && !isValidCoords b then 0
  else if !isValidCoords a then (if direction = SortDirection.asc then 1 else -1)
  else if !isValidCoords b then (if direction = SortDirection.asc then -1 else 1)
  else
    match a.location_coordinates, b.location_coordinates with
    | some coordsA, some coordsB =>
      match calculateDistance referenceLocation coordsA, calculateDistance referenceLocation coordsB with
      | JSNum.nan, JSNum.nan => 0
      | JSNum.nan, JSNum.num _ => if direction = SortDirection.asc then 1 else -1
      | JSNum.num _, JSNum.nan => if direction = SortDirection.asc then -1 else 1
      | JSNum.num distA, JSNum.num distB =>
        if direction = SortDirection.asc then distA - distB else distB - distA
    | _, _ => 0

/-- localeCompare, modelled as code-point order (locale tailoring is not
modelled; no claim depends on the name ordering). -/
noncomputable def localeCompare (a b : String) : ℝ :=
  if a < b then -1 else if b < a then 1 else 0

/-- sortCandidates: copy the array, sort by the selected field and
direction.  Candidates are compared by name, cached score, experience
months, or distance to the reference location. -/
noncomputable def sortCandidates (candidates : List Candidate) (sortOption : SortOption)
    (referenceLocation : Option LocationCoordinates) : List Candidate :=
  match sortOption.field with
  | SortField.name =>
    jsSort (fun a b =>
      if sortOption.direction = SortDirection.asc then localeCompare a.name b.name
      else localeCompare b.name a.name) candidates
  | SortField.score =>
    jsSort (fun a b =>
      let scoreA := (a.computed.bind (fun c => c.score)).getD 0
      let scoreB := (b.computed.bind (fun c => c.score)).getD 0
      if sortOption.direction = SortDirection.asc then scoreA - scoreB else scoreB - scoreA) candidates
  | SortField.experience =>
    jsSort (fun a b =>
      let expA := ((a.total_we_months.getD 0 : ℕ) : ℝ)
      let expB := ((b.total_we_months.getD 0 : ℕ) : ℝ)
      if sortOption.direction = SortDirection.asc then expA - expB else expB - expA) candidates
  | SortField.distance =>
    match referenceLocation with
    | none =>
      jsSort (fun a b =>
        if sortOption.direction = SortDirection.asc then localeCompare a.location b.location
        else localeCompare b.location a.location) candidates
    | some ref =>
      jsSort (distanceComparator sortOption.direction ref) candidates

/-! ## Helper lemmas on JavaScript numbers -/

theorem JSNum.nan_mul (x : JSNum) : JSNum.mul JSNum.nan x = JSNum.nan := by
  cases x <;> rfl

theorem JSNum.mul_nan (x : JSNum) : JSNum.mul x JSNum.nan = JSNum.nan := by
  cases x <;> rfl

theorem JSNum.nan_add (x : JSNum) : JSNum.add JSNum.nan x = JSNum.nan := by
  cases x <;> rfl

theorem JSNum.add_nan (x : JSNum) : JSNum.add x JSNum.nan = JSNum.nan := by
  cases x <;> rfl

theorem JSNum.nan_min (x : JSNum) : JSNum.min JSNum.nan x = JSNum.nan := by
  cases x <;> rfl

theorem JSNum.nan_div (x : JSNum) : JSNum.div JSNum.nan x = JSNum.nan := by
  cases x <;> rfl

theorem JSNum.div_self_zero : JSNum.div (JSNum.num 0) (JSNum.num 0) = JSNum.nan := by
  simp [JSNum.div]

/-! ## Claim C5: filtering with an empty filter spec -/

/-- The empty filter spec: empty search string and empty experience, skills,
location and employment-status sets. -/
def emptyFilterSpec : FilterType :=
  { search := "", experience := [], skills := [], location := [], employmentStatus := [] }

/-- Claim C5: for every list of candidates, filterCandidates with the empty
filter spec returns exactly the candidates whose error field is not truthy,
in their original relative order.  (The embedding is a pure function of the
input list, so the input is not mutated by construction.) -/
theorem filterCandidates_emptyFilterSpec (candidates : List Candidate) :
    filterCandidates candidates emptyFilterSpec =
      candidates.filter (fun c => !jsTruthy c.error) := by
  unfold filterCandidates
  apply List.filter_congr
  intro c _
  by_cases h : jsTruthy c.error = true
  · simp [h, emptyFilterSpec]
  · simp [h, emptyFilterSpec]

/-! ## Claim C3: TF-IDF on the empty document -/

/-- Claim C3 (code bug): contrary to the spec's required division-by-zero
guard, calculateTF on the empty document computes 0/0 and yields NaN, and
calculateTFIDF propagates it; the result is not a well-defined finite
number. -/
theorem calculateTF_empty_document_nan :
    calculateTF "python" ([] : List String) = JSNum.nan ∧
    calculateTFIDF "python" ([] : List String) [[]] = JSNum.nan := by
  have htf : calculateTF "python" ([] : List String) = JSNum.nan := by
    simp [calculateTF, JSNum.div]
  refine ⟨htf, ?_⟩
  unfold calculateTFIDF
  rw [htf]
  exact JSNum.nan_mul _

/-! ## Claim C2: job-requirement text with zero requirement terms -/

/-- Claim C2 (code bug): the requirement text "the" is nonempty but
tokenizes to zero requirement terms; the guard of the source only catches
the empty string, so the final normalization divides 0 by 0 and the match
score is NaN for every candidate, not 0. -/
theorem matchScore_zero_terms_nan :
    processJobRequirement "the" = [] ∧
    ∀ c : Candidate, calculateJobRequirementMatchScore c "the" = JSNum.nan := by
  have hterms : processJobRequirement "the" = [] := by decide
  refine ⟨hterms, fun c => ?_⟩
  unfold calculateJobRequirementMatchScore
  rw [if_neg (by decide : ¬("the" : String) = "")]
  simp only [hterms, List.foldl_nil, List.length_nil, Nat.cast_zero, zero_mul]
  simp [JSNum.div, JSNum.min]

/-! ## Claim C1: total score on an empty candidate -/

/-- A candidate with empty work experience, empty projects and
total_we_months = 0. -/
def emptyCandidate : Candidate :=
  { id := "c0", name := "A", email := none, phone := none, location := "",
    location_coordinates := none, work_experience := some [], projects := some [],
    total_we_months := some 0, error := none, computed := none }

/-- Claim C1 (code bug): for the empty candidate and the requirement text
"python" the candidate document is empty, TF computes 0/0 = NaN, and the
total score is NaN instead of an integer in [0, 100]. -/
theorem totalScore_empty_candidate_nan :
    calculateTotalCandidateScore emptyCandidate "python" = JSNum.nan := by
  have hterms : processJobRequirement "python" = ["python"] := by decide
  have hdoc : jobMatchCandidateDocument emptyCandidate = [] := rfl
  have hskills : candidateRawSkills emptyCandidate = [] := rfl
  have hdocs : createCandidateDocuments [emptyCandidate] = [[]] := rfl
  have htfidf : calculateTFIDF "python" ([] : List String) [[]] = JSNum.nan := by
    unfold calculateTFIDF
    rw [show calculateTF "python" ([] : List String) = JSNum.nan by simp [calculateTF, JSNum.div]]
    exact JSNum.nan_mul _
  have hmatch : calculateJobRequirementMatchScore emptyCandidate "python" = JSNum.nan := by
    unfold calculateJobRequirementMatchScore
    rw [if_neg (by decide : ¬("python" : String) = "")]
    simp only [hterms, hdoc, hskills, hdocs, List.foldl_cons, List.foldl_nil,
      List.any_nil, Bool.false_eq_true, if_false, htfidf, JSNum.nan_mul, JSNum.add_nan,
      JSNum.nan_div, JSNum.nan_min]
  unfold calculateTotalCandidateScore
  rw [hmatch]
  simp only [JSNum.nan_mul, JSNum.nan_add]
  rfl

/-! ## Levenshtein lemmas -/

theorem substCost_symm (a b : List Char) (i j : ℕ) : substCost a b i j = substCost b a j i := by
  unfold substCost
  by_cases h : a[i]? = b[j]?
  · rw [if_pos h, if_pos h.symm]
  · rw [if_neg h, if_neg (fun hh => h hh.symm)]

theorem levMatrix_zero_left (a b : List Char) (i : ℕ) : levMatrix a b 0 i = i := by
  simp [levMatrix]

theorem levMatrix_zero_right (a b : List Char) (j : ℕ) : levMatrix a b j 0 = j := by
  cases j with
  | zero => simp [levMatrix]
  | succ j => simp [levMatrix]

theorem levMatrix_succ_succ (a b : List Char) (j i : ℕ) :
    levMatrix a b (j + 1) (i + 1) =
      Min.min (levMatrix a b (j + 1) i + 1)
        (Min.min (levMatrix a b j (i + 1) + 1)
          (levMatrix a b j i + substCost a b i j)) := by
  simp [levMatrix]

theorem levMatrix_symm_aux (a b : List Char) :
    ∀ n j i, j + i ≤ n → levMatrix a b j i = levMatrix b a i j := by
  intro n
  induction n with
  | zero =>
    intro j i h
    obtain ⟨rfl, rfl⟩ : j = 0 ∧ i = 0 := by omega
    rw [levMatrix_zero_left, levMatrix_zero_left]
  | succ n ih =>
    intro j i h
    match j, i with
    | 0, i => rw [levMatrix_zero_left, levMatrix_zero_right]
    | j + 1, 0 => rw [levMatrix_zero_right, levMatrix_zero_left]
    | j + 1, i + 1 =>
      rw [levMatrix_succ_succ, levMatrix_succ_succ,
        ih (j + 1) i (by omega), ih j (i + 1) (by omega), ih j i (by omega),
        substCost_symm]
      omega

theorem levMatrix_symm (a b : List Char) (j i : ℕ) : levMatrix a b j i = levMatrix b a i j :=
  levMatrix_symm_aux a b (j + i) j i le_rfl

theorem levenshteinDistance_symm (a b : String) :
    levenshteinDistance a b = levenshteinDistance b a := by
  unfold levenshteinDistance
  exact levMatrix_symm a.data b.data b.data.length a.data.length

theorem substCost_le_one (a b : List Char) (i j : ℕ) : substCost a b i j ≤ 1 := by
  unfold substCost
  split <;> omega

theorem levMatrix_le_aux (a b : List Char) :
    ∀ n j i, j + i ≤ n → levMatrix a b j i ≤ Max.max i j := by
  intro n
  induction n with
  | zero =>
    intro j i h
    obtain ⟨rfl, rfl⟩ : j = 0 ∧ i = 0 := by omega
    rw [levMatrix_zero_left]
    omega
  | succ n ih =>
    intro j i h
    match j, i with
    | 0, i =>
      rw [levMatrix_zero_left]
      omega
    | j + 1, 0 =>
      rw [levMatrix_zero_right]
      omega
    | j + 1, i + 1 =>
      rw [levMatrix_succ_succ]
      have h3 := ih j i (by omega)
      have hc := substCost_le_one a b i j
      omega

theorem levenshteinDistance_le_max_length (a b : String) :
    levenshteinDistance a b ≤ Max.max a.length b.length := by
  unfold levenshteinDistance
  exact levMatrix_le_aux a.data b.data (b.data.length + a.data.length) _ _ le_rfl

/-! ## Lemmas on the JavaScript Set model -/

theorem jsSetToList_aux_nodup (l : List String) :
    ∀ acc : List String, acc.Nodup → (l.foldl insertUnique acc).Nodup := by
  induction l with
  | nil => intro acc h; exact h
  | cons x xs ih =>
    intro acc h
    rw [List.foldl_cons]
    apply ih
    unfold insertUnique
    split
    · exact h
    · next hx =>
      rw [List.nodup_append]
      refine ⟨h, List.nodup_singleton x, ?_⟩
      intro y hy hy1
      rw [List.mem_singleton] at hy1
      exact hx (hy1 ▸ hy)

theorem jsSetToList_nodup (l : List String) : (jsSetToList l).Nodup :=
  jsSetToList_aux_nodup l [] List.nodup_nil

theorem mem_jsSetToList_aux (l : List String) :
    ∀ acc x, (x ∈ l.foldl insertUnique acc ↔ x ∈ acc ∨ x ∈ l) := by
  induction l with
  | nil => intro acc x; simp
  | cons y ys ih =>
    intro acc x
    rw [List.foldl_cons, ih]
    unfold insertUnique
    split
    · next hy =>
      simp only [List.mem_cons]
      constructor
      · rintro (h | h)
        · exact Or.inl h
        · exact Or.inr (Or.inr h)
      · rintro (h | h | h)
        · exact Or.inl h
        · exact Or.inl (h ▸ hy)
        · exact Or.inr h
    · simp only [List.mem_append, List.mem_singleton, List.mem_cons]
      tauto

theorem mem_jsSetToList (l : List String) (x : String) : x ∈ jsSetToList l ↔ x ∈ l := by
  unfold jsSetToList
  rw [mem_jsSetToList_aux]
  simp

theorem jsSetToList_eq_nil_iff (l : List String) : jsSetToList l = [] ↔ l = [] := by
  constructor
  · intro h
    by_contra hl
    obtain ⟨x, hx⟩ := List.exists_mem_of_ne_nil l hl
    have hmem := (mem_jsSetToList l x).mpr hx
    rw [h] at hmem
    exact absurd hmem (List.not_mem_nil x)
  · rintro rfl
    rfl

theorem jsSetToList_aux_of_nodup (l : List String) :
    ∀ acc, (∀ x ∈ l, x ∉ acc) → l.Nodup → l.foldl insertUnique acc = acc ++ l := by
  induction l with
  | nil => intro acc _ _; simp
  | cons y ys ih =>
    intro acc hdisj hnodup
    rw [List.foldl_cons]
    have hy : y ∉ acc := hdisj y (List.mem_cons_self y ys)
    have hstep : insertUnique acc y = acc ++ [y] := by
      unfold insertUnique
      rw [if_neg hy]
    rw [hstep, ih (acc ++ [y])
      (fun x hx => by
        simp only [List.mem_append, List.mem_singleton]
        rintro (h | rfl)
        · exact hdisj x (List.mem_cons_of_mem y hx) h
        · exact (List.nodup_cons.mp hnodup).1 hx)
      (List.nodup_cons.mp hnodup).2]
    simp

theorem jsSetToList_of_nodup (l : List String) (h : l.Nodup) : jsSetToList l = l := by
  unfold jsSetToList
  rw [jsSetToList_aux_of_nodup l [] (fun x _ hx => (List.not_mem_nil x) hx) h]
  simp

theorem splitOnPred_ne_nil (p : Char → Bool) (l : List Char) : splitOnPred p l ≠ [] := by
  induction l with
  | nil => simp [splitOnPred]
  | cons c rest ih =>
    unfold splitOnPred
    split
    · simp
    · split <;> simp

theorem jsSplitSpace_ne_nil (s : String) : jsSplitSpace s ≠ [] := by
  unfold jsSplitSpace
  simpa using splitOnPred_ne_nil (· = ' ') s.data

/-! ## Jaccard lemmas -/

theorem filter_contains_perm (A B : List String) (hA : A.Nodup) (hB : B.Nodup) :
    (A.filter (fun x => B.contains x)).Perm (B.filter (fun x => A.contains x)) := by
  rw [List.perm_ext_iff_of_nodup (hA.filter _) (hB.filter _)]
  intro x
  simp only [List.mem_filter]
  constructor
  · rintro ⟨h1, h2⟩
    simp only [List.elem_iff] at h2 ⊢
    exact ⟨h2, h1⟩
  · rintro ⟨h1, h2⟩
    simp only [List.elem_iff] at h2 ⊢
    exact ⟨h2, h1⟩

theorem jsSetToList_append_perm (A B : List String) :
    (jsSetToList (A ++ B)).Perm (jsSetToList (B ++ A)) := by
  rw [List.perm_ext_iff_of_nodup (jsSetToList_nodup _) (jsSetToList_nodup _)]
  intro x
  rw [mem_jsSetToList, mem_jsSetToList]
  simp only [List.mem_append]
  exact Or.comm

theorem length_le_of_nodup_subset (l₁ l₂ : List String) (h₁ : l₁.Nodup) (h₂ : l₂.Nodup)
    (h : ∀ x ∈ l₁, x ∈ l₂) : l₁.length ≤ l₂.length := by
  rw [← List.toFinset_card_of_nodup h₁, ← List.toFinset_card_of_nodup h₂]
  apply Finset.card_le_card
  intro x hx
  rw [List.mem_toFinset] at hx ⊢
  exact h x hx

theorem jaccardSimilarity_symm (a b : String) :
    jaccardSimilarity a b = jaccardSimilarity b a := by
  simp only [jaccardSimilarity]
  by_cases h : (jsSetToList (jsSplitSpace a)).length = 0 ∧ (jsSetToList (jsSplitSpace b)).length = 0
  · rw [if_pos h, if_pos ⟨h.2, h.1⟩]
  · rw [if_neg h, if_neg (fun hh => h ⟨hh.2, hh.1⟩)]
    have hinter : (jsSetToList ((jsSetToList (jsSplitSpace a)).filter
        (fun x => (jsSetToList (jsSplitSpace b)).contains x))).length =
        (jsSetToList ((jsSetToList (jsSplitSpace b)).filter
        (fun x => (jsSetToList (jsSplitSpace a)).contains x))).length := by
      rw [jsSetToList_of_nodup _ ((jsSetToList_nodup _).filter _),
        jsSetToList_of_nodup _ ((jsSetToList_nodup _).filter _)]
      exact (filter_contains_perm _ _ (jsSetToList_nodup _) (jsSetToList_nodup _)).length_eq
    have hunion : (jsSetToList (jsSetToList (jsSplitSpace a) ++ jsSetToList (jsSplitSpace b))).length =
        (jsSetToList (jsSetToList (jsSplitSpace b) ++ jsSetToList (jsSplitSpace a))).length :=
      (jsSetToList_append_perm _ _).length_eq
    rw [hinter, hunion]

theorem jaccardSimilarity_nonneg (a b : String) : 0 ≤ jaccardSimilarity a b := by
  simp only [jaccardSimilarity]
  split
  · norm_num
  · positivity

theorem jaccardSimilarity_le_one (a b : String) : jaccardSimilarity a b ≤ 1 := by
  simp only [jaccardSimilarity]
  split
  · norm_num
  · have hne : jsSetToList (jsSetToList (jsSplitSpace a) ++ jsSetToList (jsSplitSpace b)) ≠ [] := by
      rw [Ne, jsSetToList_eq_nil_iff, List.append_eq_nil]
      rintro ⟨h1, _⟩
      rw [jsSetToList_eq_nil_iff] at h1
      exact jsSplitSpace_ne_nil a h1
    have hpos : (0 : ℝ) < (jsSetToList (jsSetToList (jsSplitSpace a) ++ jsSetToList (jsSplitSpace b))).length := by
      have := List.length_pos.mpr hne
      exact_mod_cast this
    rw [div_le_one hpos]
    have hlen : (jsSetToList ((jsSetToList (jsSplitSpace a)).filter
        (fun x => (jsSetToList (jsSplitSpace b)).contains x))).length ≤
        (jsSetToList (jsSetToList (jsSplitSpace a) ++ jsSetToList (jsSplitSpace b))).length := by
      apply length_le_of_nodup_subset _ _ (jsSetToList_nodup _) (jsSetToList_nodup _)
      intro x hx
      rw [mem_jsSetToList] at hx ⊢
      rw [List.mem_filter] at hx
      exact List.mem_append_left _ hx.1
    exact_mod_cast hlen

/-! ## Cosine lemmas -/

theorem cosineSimilarity_symm (a b : String) :
    cosineSimilarity a b = cosineSimilarity b a := by
  simp only [cosineSimilarity]
  have hperm : (jsSetToList (jsSplitSpace a ++ jsSplitSpace b)).Perm
      (jsSetToList (jsSplitSpace b ++ jsSplitSpace a)) := jsSetToList_append_perm _ _
  have hsum : ∀ f : String → ℝ,
      ((jsSetToList (jsSplitSpace a ++ jsSplitSpace b)).map f).sum =
      ((jsSetToList (jsSplitSpace b ++ jsSplitSpace a)).map f).sum :=
    fun f => (hperm.map f).sum_eq
  simp only [hsum]
  have hdot : ((jsSetToList (jsSplitSpace b ++ jsSplitSpace a)).map
      (fun w => (termFrequency (jsSplitSpace a) w : ℝ) * (termFrequency (jsSplitSpace b) w : ℝ))) =
      ((jsSetToList (jsSplitSpace b ++ jsSplitSpace a)).map
      (fun w => (termFrequency (jsSplitSpace b) w : ℝ) * (termFrequency (jsSplitSpace a) w : ℝ))) := by
    apply List.map_congr_left
    intro w _
    exact mul_comm _ _
  rw [hdot]
  exact if_congr or_comm rfl (by rw [mul_comm])

theorem cosineSimilarity_nonneg (a b : String) : 0 ≤ cosineSimilarity a b := by
  simp only [cosineSimilarity]
  split
  · exact le_refl 0
  · apply div_nonneg
    · apply List.sum_nonneg
      intro x hx
      simp only [List.mem_map] at hx
      obtain ⟨w, _, rfl⟩ := hx
      positivity
    · exact mul_nonneg (Real.sqrt_nonneg _) (Real.sqrt_nonneg _)

theorem cauchy_schwarz_list_div_le_one (U : List String) (fA fB : String → ℝ)
    (hnodup : U.Nodup)
    (hA : ∀ w, 0 ≤ fA w) (hB : ∀ w, 0 ≤ fB w)
    (hMA : Real.sqrt ((U.map (fun w => fA w * fA w)).sum) ≠ 0)
    (hMB : Real.sqrt ((U.map (fun w => fB w * fB w)).sum) ≠ 0) :
    (U.map (fun w => fA w * fB w)).sum /
      (Real.sqrt ((U.map (fun w => fA w * fA w)).sum) *
       Real.sqrt ((U.map (fun w => fB w * fB w)).sum)) ≤ 1 := by
  rw [← List.sum_toFinset _ hnodup, ← List.sum_toFinset _ hnodup, ← List.sum_toFinset _ hnodup]
  have key := Finset.sum_mul_sq_le_sq_mul_sq U.toFinset fA fB
  have hdot : 0 ≤ ∑ w ∈ U.toFinset, fA w * fB w :=
    Finset.sum_nonneg (fun w _ => mul_nonneg (hA w) (hB w))
  have hSA : 0 ≤ ∑ w ∈ U.toFinset, fA w * fA w :=
    Finset.sum_nonneg (fun w _ => mul_nonneg (hA w) (hA w))
  have key2 : (∑ w ∈ U.toFinset, fA w * fB w) ^ 2 ≤
      (∑ w ∈ U.toFinset, fA w * fA w) * (∑ w ∈ U.toFinset, fB w * fB w) := by
    simpa [pow_two] using key
  have hle : (∑ w ∈ U.toFinset, fA w * fB w) ≤
      Real.sqrt (∑ w ∈ U.toFinset, fA w * fA w) * Real.sqrt (∑ w ∈ U.toFinset, fB w * fB w) := by
    have h1 : (∑ w ∈ U.toFinset, fA w * fB w) =
        Real.sqrt ((∑ w ∈ U.toFinset, fA w * fB w) ^ 2) := (Real.sqrt_sq hdot).symm
    rw [h1, ← Real.sqrt_mul hSA]
    exact Real.sqrt_le_sqrt key2
  have hsqA : 0 < Real.sqrt (∑ w ∈ U.toFinset, fA w * fA w) := by
    rw [← List.sum_toFinset _ hnodup] at hMA
    exact lt_of_le_of_ne (Real.sqrt_nonneg _) (Ne.symm hMA)
  have hsqB : 0 < Real.sqrt (∑ w ∈ U.toFinset, fB w * fB w) := by
    rw [← List.sum_toFinset _ hnodup] at hMB
    exact lt_of_le_of_ne (Real.sqrt_nonneg _) (Ne.symm hMB)
  rw [div_le_one (mul_pos hsqA hsqB)]
  exact hle

theorem cosineSimilarity_le_one (a b : String) : cosineSimilarity a b ≤ 1 := by
  simp only [cosineSimilarity]
  split
  · norm_num
  · next h =>
    rw [not_or] at h
    exact cauchy_schwarz_list_div_le_one _ _ _ (jsSetToList_nodup _)
      (fun w => by positivity) (fun w => by positivity) h.1 h.2

/-! ## Similarity score: symmetry and bounds -/

theorem containsChars_nil_needle (l : List Char) : containsChars [] l = true := by
  cases l <;> simp [containsChars, isPrefixOfChars]

theorem jsIncludes_empty_sub (s : String) : jsIncludes s "" = true := by
  unfold jsIncludes
  exact containsChars_nil_needle s.data

theorem getSkillSimilarityScore_self (x : String) : getSkillSimilarityScore x x = 1 := by
  simp only [getSkillSimilarityScore]
  norm_num

theorem string_eq_empty_of_data_eq_nil (s : String) (h : s.data = []) : s = "" := by
  cases s
  simp_all

/-- Claim C8: the string similarity estimator is symmetric: for every pair of
strings a and b, getSkillSimilarityScore(a, b) = getSkillSimilarityScore(b, a). -/
theorem getSkillSimilarityScore_symm (a b : String) :
    getSkillSimilarityScore a b = getSkillSimilarityScore b a := by
  simp only [getSkillSimilarityScore]
  by_cases h1 : preprocessText a = preprocessText b
  · rw [if_pos h1, if_pos h1.symm]
  · rw [if_neg h1, if_neg (show ¬preprocessText b = preprocessText a from fun hh => h1 hh.symm)]
    by_cases h2 : (jsIncludes (preprocessText a) (preprocessText b) ||
        jsIncludes (preprocessText b) (preprocessText a)) = true
    · rw [if_pos h2, if_pos (show (jsIncludes (preprocessText b) (preprocessText a) ||
        jsIncludes (preprocessText a) (preprocessText b)) = true from by rwa [Bool.or_comm] at h2)]
    · rw [if_neg h2, if_neg (show ¬(jsIncludes (preprocessText b) (preprocessText a) ||
        jsIncludes (preprocessText a) (preprocessText b)) = true from
          fun hh => h2 (by rwa [Bool.or_comm] at hh))]
      rw [levenshteinDistance_symm, jaccardSimilarity_symm, cosineSimilarity_symm, Nat.max_comm]

/-- Claim C9: the similarity score is always in [0, 1]; the Levenshtein
distance never exceeds the length of the longer string; and the score of any
nonempty string with itself is 1. -/
theorem similarity_score_bounds :
    (∀ a b : String, 0 ≤ getSkillSimilarityScore a b ∧ getSkillSimilarityScore a b ≤ 1) ∧
    (∀ a b : String, levenshteinDistance a b ≤ Max.max a.length b.length) ∧
    (∀ a : String, a ≠ "" → getSkillSimilarityScore a a = 1) := by
  refine ⟨fun a b => ?_, fun a b => levenshteinDistance_le_max_length a b,
    fun a _ => getSkillSimilarityScore_self a⟩
  simp only [getSkillSimilarityScore]
  by_cases h1 : preprocessText a = preprocessText b
  · rw [if_pos h1]
    norm_num
  · rw [if_neg h1]
    by_cases h2 : (jsIncludes (preprocessText a) (preprocessText b) ||
        jsIncludes (preprocessText b) (preprocessText a)) = true
    · rw [if_pos h2]
      norm_num
    · rw [if_neg h2]
      have ha : preprocessText a ≠ "" := by
        intro hh
        apply h2
        rw [hh]
        simp [jsIncludes_empty_sub]
      have hlen_a : 0 < (preprocessText a).length := by
        have hd : (preprocessText a).data ≠ [] :=
          fun hh => ha (string_eq_empty_of_data_eq_nil _ hh)
        exact List.length_pos.mpr hd
      have hd := levenshteinDistance_le_max_length (preprocessText a) (preprocessText b)
      have hm : 0 < Max.max (preprocessText a).length (preprocessText b).length :=
        lt_of_lt_of_le hlen_a (le_max_left _ _)
      have hmR : (0 : ℝ) < ((Max.max (preprocessText a).length (preprocessText b).length : ℕ) : ℝ) := by
        exact_mod_cast hm
      have hfrac0 : (0 : ℝ) ≤ ((levenshteinDistance (preprocessText a) (preprocessText b) : ℕ) : ℝ) /
          ((Max.max (preprocessText a).length (preprocessText b).length : ℕ) : ℝ) := by
        positivity
      have hfrac1 : ((levenshteinDistance (preprocessText a) (preprocessText b) : ℕ) : ℝ) /
          ((Max.max (preprocessText a).length (preprocessText b).length : ℕ) : ℝ) ≤ 1 := by
        rw [div_le_one hmR]
        exact_mod_cast hd
      have hJ0 := jaccardSimilarity_nonneg (preprocessText a) (preprocessText b)
      have hJ1 := jaccardSimilarity_le_one (preprocessText a) (preprocessText b)
      have hC0 := cosineSimilarity_nonneg (preprocessText a) (preprocessText b)
      have hC1 := cosineSimilarity_le_one (preprocessText a) (preprocessText b)
      constructor <;> linarith

/-- Witness for C9 at concrete inputs. -/
theorem similarity_score_bounds_witness :
    (0 ≤ getSkillSimilarityScore "python" "java" ∧ getSkillSimilarityScore "python" "java" ≤ 1) ∧
    (("abc" : String) ≠ "" ∧ getSkillSimilarityScore "abc" "abc" = 1) :=
  ⟨similarity_score_bounds.1 "python" "java",
    by decide, similarity_score_bounds.2.2 "abc" (by decide)⟩

/-! ## Clustering base lemmas -/

theorem groupSimilarSkills_append_single (skills : List String) (x : String) (θ : ℝ) :
    groupSimilarSkills (skills ++ [x]) θ = addSkillToGroups θ (groupSimilarSkills skills θ) x := by
  unfold groupSimilarSkills
  rw [List.foldl_append]
  rfl

theorem addToFirstMatchingGroup_ne_nil (θ : ℝ) (p s : String) :
    ∀ (G : List (String × List String)) (u : List (String × List String)),
      addToFirstMatchingGroup θ p s G = some u → u ≠ [] := by
  intro G
  induction G with
  | nil =>
    intro u h
    simp [addToFirstMatchingGroup] at h
  | cons g rest ih =>
    intro u h
    obtain ⟨rep, members⟩ := g
    unfold addToFirstMatchingGroup at h
    split at h
    · simp only [Option.some_inj] at h
      subst h
      simp
    · revert h
      split
      · intro h
        simp only [Option.some_inj] at h
        subst h
        simp
      · intro h
        exact absurd h (by simp)

theorem addSkillToGroups_ne_nil (θ : ℝ) (G : List (String × List String)) (s : String) :
    addSkillToGroups θ G s ≠ [] := by
  unfold addSkillToGroups
  cases h : addToFirstMatchingGroup θ (preprocessText s) s G with
  | none =>
    show mapSetGroups G s [s] ≠ []
    unfold mapSetGroups
    split
    · next hany =>
      intro hmap
      rw [List.map_eq_nil_iff] at hmap
      subst hmap
      simp at hany
    · simp
  | some u => exact addToFirstMatchingGroup_ne_nil θ (preprocessText s) s G u h

theorem foldl_addSkill_ne_nil (θ : ℝ) :
    ∀ (skills : List String) (G : List (String × List String)),
      G ≠ [] → skills.foldl (addSkillToGroups θ) G ≠ [] := by
  intro skills
  induction skills with
  | nil => intro G h; exact h
  | cons s rest ih =>
    intro G _
    rw [List.foldl_cons]
    exact ih (addSkillToGroups θ G s) (addSkillToGroups_ne_nil θ G s)

theorem groupSimilarSkills_ne_nil (skills : List String) (θ : ℝ) (h : skills ≠ []) :
    groupSimilarSkills skills θ ≠ [] := by
  obtain ⟨s, rest, rfl⟩ := List.exists_cons_of_ne_nil h
  unfold groupSimilarSkills
  rw [List.foldl_cons]
  exact foldl_addSkill_ne_nil θ rest _ (addSkillToGroups_ne_nil θ [] s)

theorem addToFirstMatchingGroup_none_spec (θ : ℝ) (p x : String) :
    ∀ G : List (String × List String), addToFirstMatchingGroup θ p x G = none →
      ∀ g ∈ G, ¬ θ ≤ getSkillSimilarityScore p (preprocessText g.1) := by
  intro G
  induction G with
  | nil =>
    intro _ g hg
    exact absurd hg (List.not_mem_nil g)
  | cons g0 rest ih =>
    intro h g hg
    obtain ⟨rep, ms⟩ := g0
    unfold addToFirstMatchingGroup at h
    by_cases hc : θ ≤ getSkillSimilarityScore p (preprocessText rep)
    · rw [if_pos hc] at h
      exact absurd h (by simp)
    · rw [if_neg hc] at h
      cases hrest : addToFirstMatchingGroup θ p x rest with
      | some u =>
        rw [hrest] at h
        exact absurd h (by simp)
      | none =>
        rcases List.mem_cons.mp hg with rfl | hmem
        · exact hc
        · exact ih hrest g hmem

theorem mapSetGroups_fresh (G : List (String × List String)) (k : String) (v : List String)
    (h : ∀ g ∈ G, g.1 ≠ k) : mapSetGroups G k v = G ++ [(k, v)] := by
  unfold mapSetGroups
  rw [if_neg]
  intro hany
  obtain ⟨g, hg, hk⟩ := List.any_eq_true.mp hany
  exact h g hg (by simpa using hk)

/-- When the loop creates a new group, its key is fresh: an existing group
keyed by the same string would have matched first (self-similarity is 1, at
least the threshold), so the overwrite arm of Map.set is unreachable for
thresholds at most 1. -/
theorem addSkill_none_key_fresh (θ : ℝ) (hθ : θ ≤ 1) (G : List (String × List String))
    (x : String) (hnone : addToFirstMatchingGroup θ (preprocessText x) x G = none) :
    ∀ g ∈ G, g.1 ≠ x := by
  intro g hg heq
  apply addToFirstMatchingGroup_none_spec θ (preprocessText x) x G hnone g hg
  rw [heq, getSkillSimilarityScore_self]
  exact hθ

theorem addSkillToGroups_head_match (θ : ℝ) (rep x : String) (ms : List String)
    (rest : List (String × List String))
    (h : θ ≤ getSkillSimilarityScore (preprocessText x) (preprocessText rep)) :
    addSkillToGroups θ ((rep, ms) :: rest) x = (rep, ms ++ [x]) :: rest := by
  unfold addSkillToGroups addToFirstMatchingGroup
  rw [if_pos h]

theorem score_empty_processed_ge (θ : ℝ) (hθ : θ ≤ 0.9) (x rep : String)
    (hx : preprocessText x = "") :
    θ ≤ getSkillSimilarityScore (preprocessText x) (preprocessText rep) := by
  rw [hx]
  simp only [getSkillSimilarityScore]
  by_cases h : preprocessText "" = preprocessText (preprocessText rep)
  · rw [if_pos h]
    norm_num
    linarith
  · rw [if_neg h, if_pos]
    · exact hθ
    · rw [show preprocessText "" = "" from rfl]
      simp [jsIncludes_empty_sub]

/-! ## Claim C10 -/

/-- Claim C10: if normalization maps a to the empty string and b to a
nonempty string, the similarity is exactly 0.9 (the empty string is a
substring of every string); consequently, clustering at the default
threshold 0.8 appends any skill normalizing to the empty string to the first
existing group instead of creating a new group. -/
theorem empty_normalized_skill_behavior :
    (∀ a b : String, preprocessText a = "" → preprocessText b ≠ "" →
      getSkillSimilarityScore a b = 0.9) ∧
    (∀ (skills : List String) (x : String), skills ≠ [] → preprocessText x = "" →
      ∃ rep members rest,
        groupSimilarSkills skills 0.8 = (rep, members) :: rest ∧
        groupSimilarSkills (skills ++ [x]) 0.8 = (rep, members ++ [x]) :: rest) := by
  constructor
  · intro a b ha hb
    simp only [getSkillSimilarityScore]
    rw [if_neg (show ¬preprocessText a = preprocessText b from fun h => hb (by rw [← h, ha]))]
    rw [if_pos]
    rw [ha]
    simp [jsIncludes_empty_sub]
  · intro skills x hne hx
    obtain ⟨g, rest, hG⟩ : ∃ g rest, groupSimilarSkills skills 0.8 = g :: rest := by
      cases hG : groupSimilarSkills skills 0.8 with
      | nil => exact absurd hG (groupSimilarSkills_ne_nil skills 0.8 hne)
      | cons g rest => exact ⟨g, rest, rfl⟩
    obtain ⟨rep, members⟩ := g
    refine ⟨rep, members, rest, hG, ?_⟩
    rw [groupSimilarSkills_append_single, hG]
    exact addSkillToGroups_head_match 0.8 rep x members rest
      (score_empty_processed_ge 0.8 (by norm_num) x rep hx)

/-- Witness for C10 at concrete inputs. -/
theorem empty_normalized_skill_behavior_witness :
    (preprocessText "!!!" = "" ∧ preprocessText "react" ≠ "" ∧
      getSkillSimilarityScore "!!!" "react" = 0.9) ∧
    ((["react"] : List String) ≠ [] ∧
      ∃ rep members rest,
        groupSimilarSkills ["react"] 0.8 = (rep, members) :: rest ∧
        groupSimilarSkills (["react"] ++ ["!!!"]) 0.8 = (rep, members ++ ["!!!"]) :: rest) :=
  ⟨⟨by decide, by decide,
    empty_normalized_skill_behavior.1 "!!!" "react" (by decide) (by decide)⟩,
   ⟨by decide, empty_normalized_skill_behavior.2 ["react"] "!!!" (by decide) (by decide)⟩⟩

/-! ## Claim C6: clustering is a partition of the input occurrences -/

theorem addToFirstMatchingGroup_flatMap (θ : ℝ) (p s : String) :
    ∀ (G u : List (String × List String)),
      addToFirstMatchingGroup θ p s G = some u →
      (u.flatMap (fun g => g.2)).Perm ((G.flatMap (fun g => g.2)) ++ [s]) := by
  intro G
  induction G with
  | nil =>
    intro u h
    simp [addToFirstMatchingGroup] at h
  | cons g rest ih =>
    intro u h
    obtain ⟨rep, ms⟩ := g
    unfold addToFirstMatchingGroup at h
    by_cases hc : θ ≤ getSkillSimilarityScore p (preprocessText rep)
    · rw [if_pos hc] at h
      simp only [Option.some_inj] at h
      subst h
      simp only [List.flatMap_cons]
      have h1 : ((ms ++ [s]) ++ rest.flatMap (fun g => g.2)) =
          ms ++ ([s] ++ rest.flatMap (fun g => g.2)) := by simp
      have h2 : ([s] ++ rest.flatMap (fun g => g.2)).Perm
          (rest.flatMap (fun g => g.2) ++ [s]) := List.perm_append_comm
      have h3 : (ms ++ ([s] ++ rest.flatMap (fun g => g.2))).Perm
          (ms ++ (rest.flatMap (fun g => g.2) ++ [s])) := h2.append_left ms
      rw [h1, List.append_assoc]
      exact h3
    · rw [if_neg hc] at h
      cases hrest : addToFirstMatchingGroup θ p s rest with
      | none =>
        rw [hrest] at h
        simp at h
      | some updated =>
        rw [hrest] at h
        simp only [Option.some_inj] at h
        subst h
        simp only [List.flatMap_cons]
        rw [List.append_assoc]
        exact (ih updated hrest).append_left ms

theorem addSkillToGroups_flatMap (θ : ℝ) (hθ : θ ≤ 1) (G : List (String × List String))
    (s : String) :
    ((addSkillToGroups θ G s).flatMap (fun g => g.2)).Perm
      ((G.flatMap (fun g => g.2)) ++ [s]) := by
  unfold addSkillToGroups
  cases h : addToFirstMatchingGroup θ (preprocessText s) s G with
  | none =>
    show ((mapSetGroups G s [s]).flatMap (fun g => g.2)).Perm _
    rw [mapSetGroups_fresh G s [s] (addSkill_none_key_fresh θ hθ G s h)]
    simp
  | some u => exact addToFirstMatchingGroup_flatMap θ (preprocessText s) s G u h

theorem foldl_addSkill_flatMap (θ : ℝ) (hθ : θ ≤ 1) :
    ∀ (skills : List String) (G : List (String × List String)),
      ((skills.foldl (addSkillToGroups θ) G).flatMap (fun g => g.2)).Perm
        ((G.flatMap (fun g => g.2)) ++ skills) := by
  intro skills
  induction skills with
  | nil =>
    intro G
    simp
  | cons s rest ih =>
    intro G
    rw [List.foldl_cons]
    have t1 := ih (addSkillToGroups θ G s)
    have t2 := (addSkillToGroups_flatMap θ hθ G s).append_right rest
    have t3 := t1.trans t2
    simpa using t3

theorem flatMap_perm_of_threshold_le_one (skills : List String) (threshold : ℝ)
    (hthreshold : threshold ≤ 1) :
    ((groupSimilarSkills skills threshold).flatMap (fun g => g.2)).Perm skills := by
  unfold groupSimilarSkills
  have h := foldl_addSkill_flatMap threshold hthreshold skills []
  simpa using h

/-- Claim C6 (amended): for every input sequence of skills and every
threshold at most 1 (in particular the default 0.8), the concatenation of
all groups' member lists produced by groupSimilarSkills is a permutation of
the input sequence: each occurrence of each input skill is appended to
exactly one group.  For thresholds above 1 this fails: a duplicate input
skill matches no group (self-similarity is only 1), and
groups.set(skills[i], [skills[i]]) overwrites the existing group keyed by
that string, discarding its members. -/
theorem groupSimilarSkills_partition (skills : List String) (threshold : ℝ)
    (hthreshold : threshold ≤ 1) :
    ((groupSimilarSkills skills threshold).flatMap (fun g => g.2)).Perm skills :=
  flatMap_perm_of_threshold_le_one skills threshold hthreshold

/-- Witness for the amended C6 at a concrete input and the default
threshold. -/
theorem groupSimilarSkills_partition_witness :
    (0.8 : ℝ) ≤ 1 ∧
    ((groupSimilarSkills ["react", "java"] 0.8).flatMap (fun g => g.2)).Perm
      ["react", "java"] :=
  ⟨by norm_num, groupSimilarSkills_partition ["react", "java"] 0.8 (by norm_num)⟩

/-- Claim C6 counterexample: with threshold 1.5 and input ["a", "a"] the
second occurrence matches no group (the similarity of "a" with itself is
exactly 1, below 1.5), so Map.set overwrites the existing group keyed "a"
and its member is discarded: the concatenation of the groups' member lists
is ["a"], not a permutation of the two-element input. -/
theorem groupSimilarSkills_overwrite_counterexample :
    groupSimilarSkills ["a", "a"] 1.5 = [("a", ["a"])] ∧
    ¬ ((groupSimilarSkills ["a", "a"] 1.5).flatMap (fun g => g.2)).Perm ["a", "a"] := by
  have hsim : getSkillSimilarityScore (preprocessText "a") (preprocessText "a") = 1 :=
    getSkillSimilarityScore_self _
  have hstep1 : addSkillToGroups 1.5 [] "a" = [("a", ["a"])] := by
    unfold addSkillToGroups
    rw [show addToFirstMatchingGroup 1.5 (preprocessText "a") "a" [] = none from rfl]
    rfl
  have hnomatch : addToFirstMatchingGroup 1.5 (preprocessText "a") "a" [("a", ["a"])] = none := by
    unfold addToFirstMatchingGroup
    rw [if_neg (show ¬ (1.5 : ℝ) ≤ getSkillSimilarityScore (preprocessText "a")
      (preprocessText "a") by rw [hsim]; norm_num)]
    rfl
  have hstep2 : addSkillToGroups 1.5 [("a", ["a"])] "a" = [("a", ["a"])] := by
    unfold addSkillToGroups
    rw [hnomatch]
    rfl
  have hG : groupSimilarSkills ["a", "a"] 1.5 = [("a", ["a"])] := by
    unfold groupSimilarSkills
    rw [List.foldl_cons, List.foldl_cons, List.foldl_nil, hstep1, hstep2]
  refine ⟨hG, ?_⟩
  rw [hG]
  intro hperm
  have hlen := hperm.length_eq
  simp at hlen

/-! ## Stable sort lemmas -/

theorem jsSortInsert_nil {α : Type} (cmp : α → α → ℝ) (x : α) :
    jsSortInsert cmp x [] = [x] := rfl

theorem jsSortInsert_cons {α : Type} (cmp : α → α → ℝ) (x y : α) (ys : List α) :
    jsSortInsert cmp x (y :: ys) =
      if cmp x y ≤ 0 then x :: y :: ys else y :: jsSortInsert cmp x ys := rfl

theorem jsSort_nil {α : Type} (cmp : α → α → ℝ) : jsSort cmp [] = [] := rfl

theorem jsSort_cons {α : Type} (cmp : α → α → ℝ) (x : α) (l : List α) :
    jsSort cmp (x :: l) = jsSortInsert cmp x (jsSort cmp l) := rfl

theorem jsSortInsert_perm {α : Type} (cmp : α → α → ℝ) (x : α) :
    ∀ l : List α, (jsSortInsert cmp x l).Perm (x :: l) := by
  intro l
  induction l with
  | nil => exact List.Perm.refl _
  | cons y ys ih =>
    rw [jsSortInsert_cons]
    split
    · exact List.Perm.refl _
    · exact (ih.cons y).trans (List.Perm.swap x y ys)

theorem jsSort_perm {α : Type} (cmp : α → α → ℝ) (l : List α) : (jsSort cmp l).Perm l := by
  induction l with
  | nil => exact List.Perm.refl _
  | cons x xs ih =>
    rw [jsSort_cons]
    exact (jsSortInsert_perm cmp x _).trans (ih.cons x)

theorem jsSortInsert_head_le {α : Type} (cmp : α → α → ℝ) (x : α) (l : List α)
    (h : ∀ i ∈ l, cmp x i ≤ 0) : jsSortInsert cmp x l = x :: l := by
  cases l with
  | nil => rfl
  | cons i is =>
    rw [jsSortInsert_cons, if_pos (h i (List.mem_cons_self i is))]

theorem jsSortInsert_append_front {α : Type} (cmp : α → α → ℝ) (x : α) :
    ∀ (V I : List α), (∀ v ∈ V, ¬ cmp x v ≤ 0) →
      jsSortInsert cmp x (V ++ I) = V ++ jsSortInsert cmp x I := by
  intro V
  induction V with
  | nil => intro I _; simp
  | cons v vs ih =>
    intro I h
    rw [List.cons_append, jsSortInsert_cons, if_neg (h v (List.mem_cons_self v vs)),
      ih I (fun w hw => h w (List.mem_cons_of_mem v hw)), List.cons_append]

theorem jsSortInsert_append_tail {α : Type} (cmp : α → α → ℝ) (x : α) :
    ∀ (S I : List α), (∀ i ∈ I, cmp x i ≤ 0) →
      jsSortInsert cmp x (S ++ I) = jsSortInsert cmp x S ++ I := by
  intro S
  induction S with
  | nil =>
    intro I h
    rw [List.nil_append, jsSortInsert_head_le cmp x I h, jsSortInsert_nil, List.singleton_append]
  | cons s ss ih =>
    intro I h
    rw [List.cons_append, jsSortInsert_cons, jsSortInsert_cons]
    split
    · rw [List.cons_append, List.cons_append]
    · rw [ih I h, List.cons_append]

/-- With a comparator that puts every element failing P strictly after every
element satisfying P and ties all failing elements, the stable sort sorts
the P part and moves the failing part, in original order, to the end. -/
theorem jsSort_partition_suffix {α : Type} (cmp : α → α → ℝ) (P : α → Bool)
    (hbg : ∀ x y, P x = false → P y = true → ¬ cmp x y ≤ 0)
    (hbb : ∀ x y, P x = false → P y = false → cmp x y ≤ 0)
    (hgb : ∀ x y, P x = true → P y = false → cmp x y ≤ 0) :
    ∀ l : List α, jsSort cmp l = jsSort cmp (l.filter P) ++ l.filter (fun a => !P a) := by
  intro l
  induction l with
  | nil => rfl
  | cons x l ih =>
    rw [jsSort_cons, ih]
    by_cases hx : P x = true
    · rw [List.filter_cons_of_pos hx, List.filter_cons_of_neg (by simp [hx]), jsSort_cons]
      exact jsSortInsert_append_tail cmp x _ _
        (fun i hi => hgb x i hx (by simpa using (List.mem_filter.mp hi).2))
    · rw [List.filter_cons_of_neg (by simpa using hx), List.filter_cons_of_pos (by simpa using hx)]
      rw [jsSortInsert_append_front cmp x _ _
        (fun v hv => hbg x v (by simpa using hx)
          ((List.mem_filter.mp ((jsSort_perm cmp _).mem_iff.mp hv)).2))]
      rw [jsSortInsert_head_le cmp x _
        (fun i hi => hbb x i (by simpa using hx) (by simpa using (List.mem_filter.mp hi).2))]

/-- Mirror image: with a comparator that puts every element satisfying Q
strictly before every element failing Q and ties all Q elements, the stable
sort keeps the Q part, in original order, at the front. -/
theorem jsSort_partition_prefix {α : Type} (cmp : α → α → ℝ) (Q : α → Bool)
    (hbb : ∀ x y, Q x = true → Q y = true → cmp x y ≤ 0)
    (hbg : ∀ x y, Q x = true → Q y = false → cmp x y ≤ 0)
    (hgb : ∀ x y, Q x = false → Q y = true → ¬ cmp x y ≤ 0) :
    ∀ l : List α, jsSort cmp l = l.filter Q ++ jsSort cmp (l.filter (fun a => !Q a)) := by
  intro l
  induction l with
  | nil => rfl
  | cons x l ih =>
    rw [jsSort_cons, ih]
    by_cases hx : Q x = true
    · rw [List.filter_cons_of_pos hx, List.filter_cons_of_neg (by simp [hx]), List.cons_append]
      rw [jsSortInsert_head_le cmp x _]
      intro i hi
      rw [List.mem_append] at hi
      cases hi with
      | inl h => exact hbb x i hx (List.mem_filter.mp h).2
      | inr h =>
        exact hbg x i hx (by
          simpa using (List.mem_filter.mp ((jsSort_perm cmp _).mem_iff.mp h)).2)
    · rw [List.filter_cons_of_neg (by simpa using hx), List.filter_cons_of_pos (by simpa using hx),
        jsSort_cons]
      exact jsSortInsert_append_front cmp x _ _
        (fun v hv => hgb x v (by simpa using hx) (List.mem_filter.mp hv).2)

/-! ## Distance comparator facts -/

theorem distanceComparator_invalid_invalid (dir : SortDirection) (ref : LocationCoordinates)
    (a b : Candidate) (ha : isValidCoords a = false) (hb : isValidCoords b = false) :
    distanceComparator dir ref a b = 0 := by
  unfold distanceComparator
  rw [if_pos (by simp [ha, hb])]

theorem distanceComparator_invalid_valid (dir : SortDirection) (ref : LocationCoordinates)
    (a b : Candidate) (ha : isValidCoords a = false) (hb : isValidCoords b = true) :
    distanceComparator dir ref a b = (if dir = SortDirection.asc then 1 else -1) := by
  unfold distanceComparator
  rw [if_neg (by simp [ha, hb]), if_pos (by simp [ha])]

theorem distanceComparator_valid_invalid (dir : SortDirection) (ref : LocationCoordinates)
    (a b : Candidate) (ha : isValidCoords a = true) (hb : isValidCoords b = false) :
    distanceComparator dir ref a b = (if dir = SortDirection.asc then -1 else 1) := by
  unfold distanceComparator
  rw [if_neg (by simp [ha, hb]), if_neg (by simp [ha]), if_pos (by simp [hb])]

/-! ## Claim C4 (corrected): placement of invalid-coordinate candidates -/

/-- Claim C4 amended: sorting by distance with a reference location places
candidates lacking valid numeric coordinates after all valid ones when the
direction is ascending, but before all valid ones when the direction is
descending; in both directions two candidates lacking valid coordinates
compare equal, so their original relative order is preserved (both filters
keep the input order). -/
theorem sortCandidates_distance_invalid_placement (l : List Candidate)
    (ref : LocationCoordinates) :
    sortCandidates l { field := SortField.distance, direction := SortDirection.asc } (some ref) =
      jsSort (distanceComparator SortDirection.asc ref) (l.filter (fun c => isValidCoords c)) ++
        l.filter (fun c => !isValidCoords c) ∧
    sortCandidates l { field := SortField.distance, direction := SortDirection.desc } (some ref) =
      l.filter (fun c => !isValidCoords c) ++
        jsSort (distanceComparator SortDirection.desc ref) (l.filter (fun c => isValidCoords c)) := by
  constructor
  · show jsSort (distanceComparator SortDirection.asc ref) l = _
    have h := jsSort_partition_suffix (distanceComparator SortDirection.asc ref)
      (fun c => isValidCoords c)
      (fun x y hx hy => by
        rw [distanceComparator_invalid_valid SortDirection.asc ref x y hx hy]
        norm_num)
      (fun x y hx hy => by
        rw [distanceComparator_invalid_invalid SortDirection.asc ref x y hx hy])
      (fun x y hx hy => by
        rw [distanceComparator_valid_invalid SortDirection.asc ref x y hx hy]
        norm_num) l
    exact h
  · show jsSort (distanceComparator SortDirection.desc ref) l = _
    have h := jsSort_partition_prefix (distanceComparator SortDirection.desc ref)
      (fun c => !isValidCoords c)
      (fun x y hx hy => by
        rw [distanceComparator_invalid_invalid SortDirection.desc ref x y
          (by simpa using hx) (by simpa using hy)])
      (fun x y hx hy => by
        rw [distanceComparator_invalid_valid SortDirection.desc ref x y
          (by simpa using hx) (by simpa using hy)]
        rw [if_neg (by decide : ¬SortDirection.desc = SortDirection.asc)]
        norm_num)
      (fun x y hx hy => by
        rw [distanceComparator_valid_invalid SortDirection.desc ref x y
          (by simpa using hx) (by simpa using hy)]
        rw [if_neg (by decide : ¬SortDirection.desc = SortDirection.asc)]
        norm_num) l
    have hf : l.filter (fun a => !!isValidCoords a) = l.filter (fun c => isValidCoords c) := by
      apply List.filter_congr
      intro c _
      simp
    rw [h, hf]

def refLocation : LocationCoordinates :=
  { lat := some (JSNum.num 0), lng := some (JSNum.num 0) }

def validCandidate : Candidate :=
  { id := "v", name := "V", email := none, phone := none, location := "X",
    location_coordinates := some { lat := some (JSNum.num 10), lng := some (JSNum.num 20) },
    work_experience := none, projects := none, total_we_months := none,
    error := none, computed := none }

def invalidCandidate : Candidate :=
  { id := "i", name := "I", email := none, phone := none, location := "Y",
    location_coordinates := none,
    work_experience := none, projects := none, total_we_months := none,
    error := none, computed := none }

/-- Claim C4 counterexample: sorting by distance in descending direction
with a reference location puts the candidate without valid coordinates
BEFORE the candidate with valid coordinates, refuting the claim that invalid
candidates are ordered after all valid ones regardless of direction. -/
theorem sortCandidates_desc_invalid_first :
    isValidCoords validCandidate = true ∧
    isValidCoords invalidCandidate = false ∧
    sortCandidates [validCandidate, invalidCandidate]
        { field := SortField.distance, direction := SortDirection.desc } (some refLocation) =
      [invalidCandidate, validCandidate] := by
  refine ⟨rfl, rfl, ?_⟩
  show jsSort (distanceComparator SortDirection.desc refLocation)
      [validCandidate, invalidCandidate] = _
  have hcmp : distanceComparator SortDirection.desc refLocation validCandidate invalidCandidate
      = 1 := by
    rw [distanceComparator_valid_invalid SortDirection.desc refLocation _ _ (by rfl) (by rfl)]
    rw [if_neg (by decide : ¬SortDirection.desc = SortDirection.asc)]
  rw [jsSort_cons, jsSort_cons, jsSort_nil, jsSortInsert_nil, jsSortInsert_cons, hcmp,
    if_neg (by norm_num : ¬(1 : ℝ) ≤ 0), jsSortInsert_nil]

/-! ## Claim C7: the skill normalization map.  The key invariant of the
grouping loop: every member of a group matches its own group's key and fails
the keys of all earlier groups (keys are compared through the similarity of
the preprocessed member against the preprocessed group key, against the
threshold). -/

def GroupsInv (θ : ℝ) (G : List (String × List String)) : Prop :=
  ∀ (j : ℕ) (hj : j < G.length) (s : String), s ∈ G[j].2 →
    θ ≤ getSkillSimilarityScore (preprocessText s) (preprocessText G[j].1) ∧
    ∀ (i : ℕ) (hi : i < j),
      ¬ θ ≤ getSkillSimilarityScore (preprocessText s) (preprocessText G[i].1)

theorem addToFirstMatchingGroup_some_spec (θ : ℝ) (p x : String) :
    ∀ (G u : List (String × List String)), addToFirstMatchingGroup θ p x G = some u →
      ∃ (P S : List (String × List String)) (g : String × List String),
        G = P ++ g :: S ∧ u = P ++ (g.1, g.2 ++ [x]) :: S ∧
        (∀ g' ∈ P, ¬ θ ≤ getSkillSimilarityScore p (preprocessText g'.1)) ∧
        θ ≤ getSkillSimilarityScore p (preprocessText g.1) := by
  intro G
  induction G with
  | nil =>
    intro u h
    simp [addToFirstMatchingGroup] at h
  | cons g0 rest ih =>
    intro u h
    obtain ⟨rep, ms⟩ := g0
    unfold addToFirstMatchingGroup at h
    by_cases hc : θ ≤ getSkillSimilarityScore p (preprocessText rep)
    · rw [if_pos hc] at h
      simp only [Option.some_inj] at h
      exact ⟨[], rest, (rep, ms), by simp, by simp [h.symm],
        fun g' hg' => absurd hg' (List.not_mem_nil g'), hc⟩
    · rw [if_neg hc] at h
      cases hrest : addToFirstMatchingGroup θ p x rest with
      | none =>
        rw [hrest] at h
        exact absurd h (by simp)
      | some updated =>
        rw [hrest] at h
        simp only [Option.some_inj] at h
        obtain ⟨P, S, g, hG, hu, hPfail, hmatch⟩ := ih updated hrest
        refine ⟨(rep, ms) :: P, S, g, by rw [List.cons_append, hG], ?_, ?_, hmatch⟩
        · rw [List.cons_append, ← hu, h]
        · intro g' hg'
          rcases List.mem_cons.mp hg' with rfl | hmem
          · exact hc
          · exact hPfail g' hmem

theorem getElem_decomp_middle {α : Type} (P S : List α) (g : α)
    (h : P.length < (P ++ g :: S).length) : (P ++ g :: S)[P.length] = g := by
  rw [List.getElem_append_right (le_refl P.length)]
  simp

theorem getElem_decomp_left {α : Type} (P S : List α) (g : α) (i : ℕ) (hi : i < P.length)
    (h : i < (P ++ g :: S).length) : (P ++ g :: S)[i] = P[i] :=
  List.getElem_append_left hi

theorem getElem_decomp_right {α : Type} (P S : List α) (g : α) (i : ℕ) (hi : P.length < i)
    (h : i < (P ++ g :: S).length) (hS : i - P.length - 1 < S.length) :
    (P ++ g :: S)[i] = S.get ⟨i - P.length - 1, hS⟩ := by
  rw [List.getElem_append_right (by omega : P.length ≤ i), List.getElem_cons,
    dif_neg (by omega : ¬ i - P.length = 0)]
  rw [List.get_eq_getElem]

theorem length_decomp {α : Type} (P S : List α) (g : α) :
    (P ++ g :: S).length = P.length + S.length + 1 := by
  simp
  omega

theorem groupsInv_addSkill (θ : ℝ) (hθ : θ ≤ 1) (G : List (String × List String))
    (hG : GroupsInv θ G) (x : String) : GroupsInv θ (addSkillToGroups θ G x) := by
  unfold addSkillToGroups
  cases hstep : addToFirstMatchingGroup θ (preprocessText x) x G with
  | none =>
    show GroupsInv θ (mapSetGroups G x [x])
    rw [mapSetGroups_fresh G x [x] (addSkill_none_key_fresh θ hθ G x hstep)]
    have hfail := addToFirstMatchingGroup_none_spec θ (preprocessText x) x G hstep
    intro j hj s hs
    have hjlen : j < G.length + 1 := by simpa using hj
    by_cases hjG : j < G.length
    · have hget : (G ++ [(x, [x])])[j] = G[j] := List.getElem_append_left hjG
      rw [hget] at hs
      have hold := hG j hjG s hs
      refine ⟨?_, ?_⟩
      · rw [hget]
        exact hold.1
      · intro i hi
        have hiG : i < G.length := lt_trans hi hjG
        have hgeti : (G ++ [(x, [x])])[i] = G[i] := List.getElem_append_left hiG
        rw [hgeti]
        exact hold.2 i hi
    · have hjeq : j = G.length := by omega
      subst hjeq
      have hget : (G ++ [(x, [x])])[G.length] = (x, [x]) :=
        getElem_decomp_middle G [] (x, [x]) hj
      rw [hget] at hs
      simp only [List.mem_singleton] at hs
      subst hs
      refine ⟨?_, ?_⟩
      · rw [hget]
        show θ ≤ getSkillSimilarityScore (preprocessText s) (preprocessText s)
        rw [getSkillSimilarityScore_self]
        exact hθ
      · intro i hi
        have hgeti : (G ++ [(s, [s])])[i] = G[i] := List.getElem_append_left hi
        rw [hgeti]
        exact hfail G[i] (List.getElem_mem hi)
  | some u =>
    show GroupsInv θ u
    obtain ⟨P, S, g, hGdec, hudec, hPfail, hmatch⟩ :=
      addToFirstMatchingGroup_some_spec θ (preprocessText x) x G u hstep
    subst hudec
    subst hGdec
    intro j hj s hs
    have hlen : (P ++ (g.1, g.2 ++ [x]) :: S).length = (P ++ g :: S).length := by simp
    have hjG : j < (P ++ g :: S).length := by omega
    have hkey : ∀ (i : ℕ) (h1 : i < (P ++ (g.1, g.2 ++ [x]) :: S).length)
        (h2 : i < (P ++ g :: S).length),
        ((P ++ (g.1, g.2 ++ [x]) :: S)[i]).1 = ((P ++ g :: S)[i]).1 := by
      intro i h1 h2
      rcases lt_trichotomy i P.length with hi | hi | hi
      · rw [getElem_decomp_left P S g i hi h2, getElem_decomp_left P _ _ i hi h1]
      · subst hi
        rw [getElem_decomp_middle P S g h2, getElem_decomp_middle P _ _ h1]
      · have hS : i - P.length - 1 < S.length := by
          rw [length_decomp] at h2
          omega
        rw [getElem_decomp_right P S g i hi h2 hS, getElem_decomp_right P _ _ i hi h1 hS]
    have hmem2 : ∀ (jj : ℕ) (h1 : jj < (P ++ (g.1, g.2 ++ [x]) :: S).length)
        (h2 : jj < (P ++ g :: S).length), jj ≠ P.length →
        ((P ++ (g.1, g.2 ++ [x]) :: S)[jj]).2 = ((P ++ g :: S)[jj]).2 := by
      intro jj h1 h2 hne
      rcases lt_trichotomy jj P.length with hi | hi | hi
      · rw [getElem_decomp_left P S g jj hi h2, getElem_decomp_left P _ _ jj hi h1]
      · exact absurd hi hne
      · have hS : jj - P.length - 1 < S.length := by
          rw [length_decomp] at h2
          omega
        rw [getElem_decomp_right P S g jj hi h2 hS, getElem_decomp_right P _ _ jj hi h1 hS]
    have hmidlen : P.length < (P ++ (g.1, g.2 ++ [x]) :: S).length := by
      rw [length_decomp]
      omega
    have hmidG : (P ++ g :: S)[P.length] = g :=
      getElem_decomp_middle P S g (by rw [length_decomp]; omega)
    have hmid : (P ++ (g.1, g.2 ++ [x]) :: S)[P.length] = (g.1, g.2 ++ [x]) :=
      getElem_decomp_middle P S (g.1, g.2 ++ [x]) hmidlen
    by_cases hjP : j = P.length
    · subst hjP
      rw [hmid] at hs
      have hs2 : s ∈ g.2 ++ [x] := hs
      rcases List.mem_append.mp hs2 with hsg | hsx
      · have hsarg : s ∈ ((P ++ g :: S)[P.length]).2 := by
          rw [hmidG]
          exact hsg
        have hold := hG P.length (by omega) s hsarg
        refine ⟨?_, ?_⟩
        · rw [hkey P.length hj hjG]
          exact hold.1
        · intro i hi
          rw [hkey i (by omega) (by omega)]
          exact hold.2 i hi
      · simp only [List.mem_singleton] at hsx
        subst hsx
        refine ⟨?_, ?_⟩
        · rw [hkey P.length hj hjG, hmidG]
          exact hmatch
        · intro i hi
          rw [hkey i (by omega) (by omega), getElem_decomp_left P S g i hi (by omega)]
          exact hPfail P[i] (List.getElem_mem hi)
    · have hmems := hmem2 j hj hjG hjP
      rw [hmems] at hs
      have hold := hG j hjG s hs
      refine ⟨?_, ?_⟩
      · rw [hkey j hj hjG]
        exact hold.1
      · intro i hi
        rw [hkey i (by omega) (by omega)]
        exact hold.2 i hi

theorem groupsInv_nil (θ : ℝ) : GroupsInv θ [] := by
  intro j hj
  simp at hj

theorem groupsInv_foldl (θ : ℝ) (hθ : θ ≤ 1) :
    ∀ (skills : List String) (G : List (String × List String)),
      GroupsInv θ G → GroupsInv θ (skills.foldl (addSkillToGroups θ) G) := by
  intro skills
  induction skills with
  | nil => intro G h; exact h
  | cons s rest ih =>
    intro G h
    rw [List.foldl_cons]
    exact ih _ (groupsInv_addSkill θ hθ G h s)

theorem groupsInv_groupSimilarSkills (θ : ℝ) (hθ : θ ≤ 1) (skills : List String) :
    GroupsInv θ (groupSimilarSkills skills θ) :=
  groupsInv_foldl θ hθ skills [] (groupsInv_nil θ)

/-- No string belongs to two distinct groups: membership position is unique. -/
theorem mem_group_unique (θ : ℝ) (G : List (String × List String)) (h : GroupsInv θ G)
    (j j' : ℕ) (hj : j < G.length) (hj' : j' < G.length) (s : String)
    (hs : s ∈ G[j].2) (hs' : s ∈ G[j'].2) : j = j' := by
  rcases lt_trichotomy j j' with hlt | heq | hlt
  · exact absurd (h j hj s hs).1 ((h j' hj' s hs').2 j hlt)
  · exact heq
  · exact absurd (h j' hj' s hs').1 ((h j hj s hs).2 j' hlt)

theorem members_ne_nil_addSkill (θ : ℝ) (G : List (String × List String)) (x : String)
    (h : ∀ g ∈ G, g.2 ≠ []) : ∀ g ∈ addSkillToGroups θ G x, g.2 ≠ [] := by
  unfold addSkillToGroups
  cases hstep : addToFirstMatchingGroup θ (preprocessText x) x G with
  | none =>
    show ∀ g ∈ mapSetGroups G x [x], g.2 ≠ []
    unfold mapSetGroups
    split
    · intro g hg
      obtain ⟨g0, hg0, hmap⟩ := List.mem_map.mp hg
      by_cases hk : g0.1 = x
      · rw [if_pos hk] at hmap
        rw [← hmap]
        simp
      · rw [if_neg hk] at hmap
        rw [← hmap]
        exact h g0 hg0
    · intro g hg
      rcases List.mem_append.mp hg with hg | hg
      · exact h g hg
      · simp only [List.mem_singleton] at hg
        subst hg
        simp
  | some u =>
    show ∀ g ∈ u, g.2 ≠ []
    obtain ⟨P, S, g0, hGdec, hudec, _, _⟩ :=
      addToFirstMatchingGroup_some_spec θ (preprocessText x) x G u hstep
    subst hudec
    subst hGdec
    intro g hg
    rcases List.mem_append.mp hg with hg | hg
    · exact h g (List.mem_append_left _ hg)
    · rcases List.mem_cons.mp hg with rfl | hg
      · simp
      · exact h g (List.mem_append_right _ (List.mem_cons_of_mem _ hg))

theorem members_ne_nil_groupSimilarSkills (θ : ℝ) (skills : List String) :
    ∀ g ∈ groupSimilarSkills skills θ, g.2 ≠ [] := by
  unfold groupSimilarSkills
  have haux : ∀ (l : List String) (G : List (String × List String)),
      (∀ g ∈ G, g.2 ≠ []) → ∀ g ∈ l.foldl (addSkillToGroups θ) G, g.2 ≠ [] := by
    intro l
    induction l with
    | nil => intro G h; exact h
    | cons s rest ih =>
      intro G h
      rw [List.foldl_cons]
      exact ih _ (members_ne_nil_addSkill θ G s h)
  exact haux skills [] (fun g hg => absurd hg (List.not_mem_nil g))

/-! ## Map model lemmas -/

theorem find?_map_replace (k v : String) :
    ∀ m : List (String × String), m.any (fun p => p.1 = k) = true →
      (m.map (fun p => if p.1 = k then (k, v) else p)).find? (fun p => p.1 = k) = some (k, v) := by
  intro m
  induction m with
  | nil => intro h; simp at h
  | cons p rest ih =>
    intro hany
    simp only [List.map_cons]
    by_cases hp : p.1 = k
    · rw [if_pos hp]
      exact List.find?_cons_of_pos _ (by simp)
    · rw [if_neg hp]
      rw [List.find?_cons_of_neg _ (by simpa using hp)]
      apply ih
      simp only [List.any_cons] at hany
      rcases Bool.or_eq_true_iff.mp hany with h1 | h1
      · exact absurd (by simpa using h1) hp
      · exact h1

theorem find?_map_replace_other (k v k' : String) (hne : k' ≠ k) :
    ∀ m : List (String × String),
      (m.map (fun p => if p.1 = k then (k, v) else p)).find? (fun p => p.1 = k') =
        m.find? (fun p => p.1 = k') := by
  intro m
  induction m with
  | nil => rfl
  | cons p rest ih =>
    simp only [List.map_cons]
    by_cases hp : p.1 = k
    · rw [if_pos hp]
      rw [List.find?_cons_of_neg _ (by simp; exact fun h => hne h.symm),
        List.find?_cons_of_neg _ (by simp [hp]; exact fun h => hne h.symm)]
      exact ih
    · rw [if_neg hp]
      by_cases hp' : p.1 = k'
      · rw [List.find?_cons_of_pos _ (by simpa using hp'), List.find?_cons_of_pos _ (by simpa using hp')]
      · rw [List.find?_cons_of_neg _ (by simpa using hp'), List.find?_cons_of_neg _ (by simpa using hp')]
        exact ih

theorem mapGet_mapSet_self (m : List (String × String)) (k v : String) :
    mapGet (mapSet m k v) k = some v := by
  unfold mapSet mapGet
  split
  · next hany =>
    rw [find?_map_replace k v m hany]
    rfl
  · next hany =>
    have hnone : m.find? (fun p => p.1 = k) = none := by
      rw [List.find?_eq_none]
      intro p hp hpk
      exact hany (List.any_eq_true.mpr ⟨p, hp, hpk⟩)
    rw [List.find?_append, hnone]
    simp [List.find?]

theorem mapGet_mapSet_other (m : List (String × String)) (k v k' : String) (h : k' ≠ k) :
    mapGet (mapSet m k v) k' = mapGet m k' := by
  unfold mapSet mapGet
  split
  · rw [find?_map_replace_other k v k' h m]
  · rw [List.find?_append]
    have hsingle : ([(k, v)] : List (String × String)).find? (fun p => p.1 = k') = none := by
      rw [List.find?_eq_none]
      intro p hp hpk
      simp only [List.mem_singleton] at hp
      subst hp
      have hkk : k = k' := by simpa using hpk
      exact h hkk.symm
    rw [hsingle]
    cases m.find? (fun p => p.1 = k') <;> rfl

theorem innerFold_get_not_mem (v : String) :
    ∀ (ms : List String) (m : List (String × String)) (s : String), s ∉ ms →
      mapGet (ms.foldl (fun acc k => mapSet acc k v) m) s = mapGet m s := by
  intro ms
  induction ms with
  | nil => intro m s _; rfl
  | cons y ys ih =>
    intro m s hs
    rw [List.foldl_cons, ih _ s (fun h => hs (List.mem_cons_of_mem y h))]
    exact mapGet_mapSet_other m y v s
      (fun h => hs (by rw [h]; exact List.mem_cons_self y ys))

theorem innerFold_get_mem (v : String) :
    ∀ (ms : List String) (m : List (String × String)) (s : String), s ∈ ms →
      mapGet (ms.foldl (fun acc k => mapSet acc k v) m) s = some v := by
  intro ms
  induction ms with
  | nil => intro m s hs; exact absurd hs (List.not_mem_nil s)
  | cons y ys ih =>
    intro m s hs
    rw [List.foldl_cons]
    by_cases hmem : s ∈ ys
    · exact ih _ s hmem
    · have hsy : s = y := by
        rcases List.mem_cons.mp hs with h | h
        · exact h
        · exact absurd h hmem
      subst hsy
      rw [innerFold_get_not_mem v ys _ s hmem]
      exact mapGet_mapSet_self m s v

theorem repFold_get_not_mem :
    ∀ (G : List (String × List String)) (m : List (String × String)) (s : String),
      (∀ g ∈ G, s ∉ g.2) →
      mapGet (G.foldl (fun mapping g =>
        g.2.foldl (fun m skill => mapSet m skill (bestRepresentative g.2)) mapping) m) s =
      mapGet m s := by
  intro G
  induction G with
  | nil => intro m s _; rfl
  | cons g rest ih =>
    intro m s h
    rw [List.foldl_cons, ih _ s (fun g' hg' => h g' (List.mem_cons_of_mem g hg'))]
    exact innerFold_get_not_mem _ g.2 m s (h g (List.mem_cons_self g rest))

theorem repFold_get_mem (m : List (String × String)) (s : String)
    (P S : List (String × List String)) (g : String × List String)
    (hs : s ∈ g.2) (hlater : ∀ g' ∈ S, s ∉ g'.2) :
    mapGet ((P ++ g :: S).foldl (fun mapping g =>
      g.2.foldl (fun m skill => mapSet m skill (bestRepresentative g.2)) mapping) m) s =
    some (bestRepresentative g.2) := by
  rw [List.foldl_append, List.foldl_cons, repFold_get_not_mem S _ s hlater]
  exact innerFold_get_mem _ g.2 _ s hs

theorem bestRepresentative_mem (ms : List String) (h : ms ≠ []) : bestRepresentative ms ∈ ms := by
  unfold bestRepresentative
  have hperm := jsSort_perm (fun a b => ((repCompare a b : ℤ) : ℝ)) ms
  cases hsorted : jsSort (fun a b => ((repCompare a b : ℤ) : ℝ)) ms with
  | nil =>
    rw [hsorted] at hperm
    exact absurd (hperm.symm.eq_nil) h
  | cons hd tl =>
    rw [hsorted] at hperm
    simp only [List.headD_cons]
    exact hperm.mem_iff.mp (List.mem_cons_self hd tl)

theorem mapGet_rep_of_mem_group (θ : ℝ) (G : List (String × List String))
    (hinv : GroupsInv θ G) (j : ℕ) (hj : j < G.length) (s : String) (hs : s ∈ G[j].2) :
    mapGet (getRepresentativeSkills G) s = some (bestRepresentative (G[j].2)) := by
  have hdec : G = G.take j ++ G[j] :: G.drop (j + 1) := by
    rw [← List.drop_eq_getElem_cons hj, List.take_append_drop]
  have hlater : ∀ g' ∈ G.drop (j + 1), s ∉ g'.2 := by
    intro g' hg' hmem
    obtain ⟨i, hi, hgi⟩ := List.getElem_of_mem hg'
    have hbound : j + 1 + i < G.length := by
      rw [List.length_drop] at hi
      omega
    have hgd : G[j + 1 + i] = g' := by
      rw [← hgi, List.getElem_drop]
    have hmem2 : s ∈ G[j + 1 + i].2 := by
      rw [hgd]
      exact hmem
    have := mem_group_unique θ G hinv j (j + 1 + i) hj hbound s hs hmem2
    omega
  simp only [getRepresentativeSkills]
  rw [show (G.foldl (fun mapping g =>
      g.2.foldl (fun m skill => mapSet m skill (bestRepresentative g.2)) mapping) []) =
    ((G.take j ++ G[j] :: G.drop (j + 1)).foldl (fun mapping g =>
      g.2.foldl (fun m skill => mapSet m skill (bestRepresentative g.2)) mapping) []) by rw [← hdec]]
  exact repFold_get_mem [] s (G.take j) (G.drop (j + 1)) G[j] hs hlater

theorem normalizeSkill_eq (s : String) (M : List (String × String)) :
    normalizeSkill s M = match mapGet M s with
      | some v => if v = "" then s else v
      | none => s := rfl

/-- Claim C7: for every candidate set, the skill normalization map built by
createSkillNormalizationMapping maps every raw skill of the extracted
vocabulary to exactly one representative, the representative of each group
is itself a member of that group, every representative maps to itself, and
normalizing is idempotent on every string. -/
theorem skillNormalizationMapping_spec (candidates : List Candidate) :
    (∀ s ∈ extractAllSkills candidates,
      ∃ r, mapGet (createSkillNormalizationMapping candidates) s = some r) ∧
    (∀ g ∈ groupSimilarSkills (extractAllSkills candidates) 0.8,
      bestRepresentative g.2 ∈ g.2) ∧
    (∀ s r, mapGet (createSkillNormalizationMapping candidates) s = some r →
      mapGet (createSkillNormalizationMapping candidates) r = some r) ∧
    (∀ s, normalizeSkill (normalizeSkill s (createSkillNormalizationMapping candidates))
        (createSkillNormalizationMapping candidates) =
      normalizeSkill s (createSkillNormalizationMapping candidates)) := by
  have hinv : GroupsInv 0.8 (groupSimilarSkills (extractAllSkills candidates) 0.8) :=
    groupsInv_groupSimilarSkills 0.8 (by norm_num) _
  have hne : ∀ g ∈ groupSimilarSkills (extractAllSkills candidates) 0.8, g.2 ≠ [] :=
    members_ne_nil_groupSimilarSkills 0.8 _
  have hM : createSkillNormalizationMapping candidates =
      getRepresentativeSkills (groupSimilarSkills (extractAllSkills candidates) 0.8) := rfl
  have hmemidx : ∀ s, s ∈ extractAllSkills candidates →
      ∃ j, ∃ hj : j < (groupSimilarSkills (extractAllSkills candidates) 0.8).length,
        s ∈ (groupSimilarSkills (extractAllSkills candidates) 0.8)[j].2 := by
    intro s hs
    have hperm := flatMap_perm_of_threshold_le_one (extractAllSkills candidates) 0.8
      (by norm_num)
    have hsin : s ∈ (groupSimilarSkills (extractAllSkills candidates) 0.8).flatMap
        (fun g => g.2) := hperm.mem_iff.mpr hs
    obtain ⟨g, hgG, hsg⟩ := List.mem_flatMap.mp hsin
    obtain ⟨j, hj, hgj⟩ := List.getElem_of_mem hgG
    refine ⟨j, hj, ?_⟩
    rw [hgj]
    exact hsg
  have hnone : ∀ s, (∀ g ∈ groupSimilarSkills (extractAllSkills candidates) 0.8, s ∉ g.2) →
      mapGet (createSkillNormalizationMapping candidates) s = none := by
    intro s h
    rw [hM]
    simp only [getRepresentativeSkills]
    rw [repFold_get_not_mem _ [] s h]
    rfl
  have hget : ∀ (j : ℕ) (hj : j < (groupSimilarSkills (extractAllSkills candidates) 0.8).length)
      (s : String), s ∈ (groupSimilarSkills (extractAllSkills candidates) 0.8)[j].2 →
      mapGet (createSkillNormalizationMapping candidates) s =
        some (bestRepresentative ((groupSimilarSkills (extractAllSkills candidates) 0.8)[j].2)) := by
    intro j hj s hs
    rw [hM]
    exact mapGet_rep_of_mem_group 0.8 _ hinv j hj s hs
  have h3 : ∀ s r, mapGet (createSkillNormalizationMapping candidates) s = some r →
      mapGet (createSkillNormalizationMapping candidates) r = some r := by
    intro s r hr
    by_cases hmem : ∃ j, ∃ hj : j < (groupSimilarSkills (extractAllSkills candidates) 0.8).length,
        s ∈ (groupSimilarSkills (extractAllSkills candidates) 0.8)[j].2
    · obtain ⟨j, hj, hsj⟩ := hmem
      rw [hget j hj s hsj] at hr
      have hreq : r = bestRepresentative ((groupSimilarSkills (extractAllSkills candidates) 0.8)[j].2) :=
        (Option.some_inj.mp hr).symm
      subst hreq
      have hrmem : bestRepresentative ((groupSimilarSkills (extractAllSkills candidates) 0.8)[j].2) ∈
          (groupSimilarSkills (extractAllSkills candidates) 0.8)[j].2 :=
        bestRepresentative_mem _ (hne _ (List.getElem_mem hj))
      exact hget j hj _ hrmem
    · have hno : ∀ g ∈ groupSimilarSkills (extractAllSkills candidates) 0.8, s ∉ g.2 := by
        intro g hg hx
        obtain ⟨j, hj, hgj⟩ := List.getElem_of_mem hg
        exact hmem ⟨j, hj, by rw [hgj]; exact hx⟩
      rw [hnone s hno] at hr
      exact absurd hr (by simp)
  refine ⟨?_, ?_, h3, ?_⟩
  · intro s hs
    obtain ⟨j, hj, hsj⟩ := hmemidx s hs
    exact ⟨_, hget j hj s hsj⟩
  · intro g hg
    exact bestRepresentative_mem g.2 (hne g hg)
  · intro s
    cases hs : mapGet (createSkillNormalizationMapping candidates) s with
    | none =>
      have h1 : normalizeSkill s (createSkillNormalizationMapping candidates) = s := by
        simp only [normalizeSkill_eq, hs]
      rw [h1, h1]
    | some v =>
      by_cases hv : v = ""
      · have h1 : normalizeSkill s (createSkillNormalizationMapping candidates) = s := by
          simp only [normalizeSkill_eq, hs]
          rw [if_pos hv]
        rw [h1, h1]
      · have h1 : normalizeSkill s (createSkillNormalizationMapping candidates) = v := by
          simp only [normalizeSkill_eq, hs]
          rw [if_neg hv]
        rw [h1]
        have h2 := h3 s v hs
        simp only [normalizeSkill_eq, h2]
        rw [if_neg hv]

/-- Witness for C7 at a concrete candidate set. -/
def witnessCandidate : Candidate :=
  { id := "w", name := "W", email := none, phone := none, location := "Z",
    location_coordinates := none,
    work_experience := some [
      { company := some "Acme", title := some "Dev", start_date := none, end_date := none,
        is_current := some true, location := none, responsibilities := none,
        skills := some ["React", "ReactJS"] }],
    projects := some [], total_we_months := some 12, error := none, computed := none }

theorem skillNormalizationMapping_spec_witness :
    ("React" ∈ extractAllSkills [witnessCandidate] ∧
      ∃ r, mapGet (createSkillNormalizationMapping [witnessCandidate]) "React" = some r) ∧
    normalizeSkill (normalizeSkill "React" (createSkillNormalizationMapping [witnessCandidate]))
        (createSkillNormalizationMapping [witnessCandidate]) =
      normalizeSkill "React" (createSkillNormalizationMapping [witnessCandidate]) :=
  ⟨⟨by decide, (skillNormalizationMapping_spec [witnessCandidate]).1 "React" (by decide)⟩,
    (skillNormalizationMapping_spec [witnessCandidate]).2.2.2 "React"⟩
